import Mathlib

/-!
# Verification of the ctrl_mpexec execution core

A shallow embedding of the multiprocess quantum-graph executor of
`ctrl_mpexec` together with the parts of the repository that are present as
Python sources (`cmdLineParser.py`, `quantumGraphExecutor.py`,
`dataid_match.py`), and proofs of the behavioural claims about them.

The scheduler itself (`MPGraphExecutor`, `ExecFixupDataId`) is not among the
shipped sources — only its tests are — so those definitions are modelled from
the specification's description of the scheduler (§4.6, §4.7 of the spec) and
are marked `Modelled from the spec:` in their doc comments.  The scheduler's
concurrent dispatch is rendered as the deterministic sequential schedule that
pops ready nodes in topological iteration order; this is one admissible
schedule of the specified main loop, and all scheduling policy (readiness,
cascading skip, fail-fast, timeout classification, final error selection) is
modelled faithfully.
-/

namespace Mpexec

/-- Node lifecycle states of the scheduler (spec §3 "Node state"). -/
inductive NodeState
  | pending
  | ready
  | running
  | succeeded
  | failed
  | timedOut
  | skipped
deriving DecidableEq, Repr

/-- Modelled from the spec: what running a task's quantum does.  The test
tasks are `TaskMockMP` (runs fine), `TaskMockFail` (raises), the sleeping
tasks (run for a given wall time), and a task whose `taskClass` is `None`
(spec §4.6 "executed as a no-op success via the in-process path"). -/
inductive TaskBehavior
  | succeed
  | raiseError
  | sleep (seconds : Nat)
  | noTaskClass
deriving DecidableEq, Repr

/-- Task definition attributes used by the scheduler (spec §3):
a textual label and the supports-multiprocess capability flag, plus the
behaviour of the task's class when run. -/
structure TaskDef where
  label : String
  canMultiprocess : Bool
  behavior : TaskBehavior
deriving DecidableEq, Repr

/-- A quantum node (spec §3): stable integer index, task definition, the
quantum payload (its data id, a string-to-integer mapping as in the tests),
and the set of predecessor indices. -/
structure QuantumNode where
  index : Nat
  taskDef : TaskDef
  dataId : List (String × Int)
  dependencies : List Nat
deriving DecidableEq, Repr

/-- Graph view (spec §3, §4.2): an immutable DAG over quantum nodes given as
the node list; edges are encoded by each node's `dependencies`. -/
structure GraphView where
  nodes : List QuantumNode
deriving DecidableEq, Repr

/-- Lookup of a data-id field (`quantum.dataId[field]`). -/
def dataIdGet (dataId : List (String × Int)) (field : String) : Option Int :=
  (dataId.find? (fun p => p.1 == field)).map Prod.snd

/-- All dependencies of `n` already emitted (present in `done`). -/
def depsSatisfied (done : List Nat) (n : QuantumNode) : Bool :=
  n.dependencies.all (fun d => done.contains d)

/-- Modelled from the spec: topological iteration (spec §4.2).  Kahn-style
loop: repeatedly emit the first remaining node all of whose predecessors have
been emitted.  Returns the emitted order and the un-emittable leftover. -/
def topoLoop : Nat → List QuantumNode → List Nat → List QuantumNode →
    List QuantumNode × List QuantumNode
  | 0, remaining, _, acc => (acc.reverse, remaining)
  | Nat.succ fuel, remaining, done, acc =>
    match remaining.find? (depsSatisfied done) with
    | none => (acc.reverse, remaining)
    | some n => topoLoop fuel (remaining.erase n) (n.index :: done) (n :: acc)

/-- Topological iteration order of a graph view, with the leftover nodes that
could not be scheduled (nonempty exactly on a dependency cycle). -/
def GraphView.topoOrder (g : GraphView) : List QuantumNode × List QuantumNode :=
  topoLoop g.nodes.length g.nodes [] []

/-- Modelled from the spec: `findCycle` (spec §4.2) — empty iff acyclic. -/
def GraphView.findCycle (g : GraphView) : List QuantumNode :=
  g.topoOrder.2

/-- Parameters of the canonical execution-graph fixup (spec §4.7). -/
structure FixupSpec where
  taskLabel : String
  dataIdField : String
  reverse : Bool
deriving DecidableEq, Repr

/-- Scheduler configuration (spec §4.6). -/
structure ExecConfig where
  numProc : Nat
  timeout : Nat
  failFast : Bool
  fixup : Option FixupSpec
deriving DecidableEq, Repr

/-- Modelled from the spec: outcome of dispatching one node (spec §4.6).
A raising task terminates `Failed`; a worker whose wall time exceeds the
per-worker deadline is terminated and classified `TimedOut`; a `None` task
class is a no-op success. -/
def runOutcome (timeout : Nat) (b : TaskBehavior) : NodeState :=
  match b with
  | .succeed => .succeeded
  | .noTaskClass => .succeeded
  | .raiseError => .failed
  | .sleep s => if timeout < s then .timedOut else .succeeded

/-- Scheduler bookkeeping: per-node terminal records in completion order (the
run Report), the dispatched nodes in dispatch order, the quanta the executor
recorded (the mock appends a quantum only when its run finishes
successfully), and the fail-fast stop flag. -/
structure ExecState where
  finished : List (Nat × NodeState)
  dispatched : List QuantumNode
  quanta : List QuantumNode
  stopped : Bool
deriving DecidableEq, Repr

def initExecState : ExecState := ⟨[], [], [], false⟩

/-- The state recorded for node index `i` (default `pending`). -/
def stateOf (finished : List (Nat × NodeState)) (i : Nat) : NodeState :=
  match finished.find? (fun p => p.1 == i) with
  | some p => p.2
  | none => .pending

/-- A node is dispatched when the run has not been stopped by fail-fast and
all its predecessors terminated `Succeeded` (spec §3 invariants, §4.6). -/
def dispatchCondB (st : ExecState) (n : QuantumNode) : Bool :=
  !st.stopped && n.dependencies.all (fun d => stateOf st.finished d == NodeState.succeeded)

/-- Modelled from the spec: one scheduling step of the main loop (spec §4.6).
If fail-fast already fired every still-pending node is marked `Skipped`;
a node all of whose predecessors `Succeeded` is dispatched and classified by
its outcome; otherwise the node is promoted to `Skipped` (cascading skip). -/
def processNode (cfg : ExecConfig) (st : ExecState) (n : QuantumNode) : ExecState :=
  if st.stopped then
    { st with finished := st.finished ++ [(n.index, NodeState.skipped)] }
  else if n.dependencies.all (fun d => stateOf st.finished d == NodeState.succeeded) then
    let out := runOutcome cfg.timeout n.taskDef.behavior
    { finished := st.finished ++ [(n.index, out)],
      dispatched := st.dispatched ++ [n],
      quanta := st.quanta ++ (if out == NodeState.succeeded then [n] else []),
      stopped := cfg.failFast && !(out == NodeState.succeeded) }
  else
    { st with finished := st.finished ++ [(n.index, NodeState.skipped)] }

/-- The terminal state `processNode` records for `n` against state `st`. -/
def recordedState (cfg : ExecConfig) (st : ExecState) (n : QuantumNode) : NodeState :=
  if dispatchCondB st n then runOutcome cfg.timeout n.taskDef.behavior else NodeState.skipped

/-- Modelled from the spec: running the main loop over a given dispatch
order (spec §4.6 "Main loop"). -/
def runStates (cfg : ExecConfig) (order : List QuantumNode) : ExecState :=
  order.foldl (processNode cfg) initExecState

/-- Strict weak order used by the canonical fixup: ascending integer value of
the chosen data-id field, ties broken on `node.index` (spec §4.7). -/
def keyRel (a b : Int × QuantumNode) : Prop :=
  a.1 < b.1 ∨ (a.1 = b.1 ∧ a.2.index ≤ b.2.index)

instance (a b : Int × QuantumNode) : Decidable (keyRel a b) := by
  unfold keyRel; exact inferInstance

instance : IsTotal (Int × QuantumNode) keyRel where
  total a b := by
    unfold keyRel
    rcases lt_trichotomy a.1 b.1 with h | h | h
    · exact Or.inl (Or.inl h)
    · rcases Nat.le_total a.2.index b.2.index with h2 | h2
      · exact Or.inl (Or.inr ⟨h, h2⟩)
      · exact Or.inr (Or.inr ⟨h.symm, h2⟩)
    · exact Or.inr (Or.inl h)

instance : IsTrans (Int × QuantumNode) keyRel where
  trans a b c hab hbc := by
    unfold keyRel at *
    rcases hab with h1 | ⟨h1, h1i⟩ <;> rcases hbc with h2 | ⟨h2, h2i⟩
    · exact Or.inl (h1.trans h2)
    · exact Or.inl (h2 ▸ h1)
    · exact Or.inl (h1 ▸ h2)
    · exact Or.inr ⟨h1.trans h2, h1i.trans h2i⟩

/-- The order in which the canonical fixup chains the matching nodes:
sorted ascending by key, reversed when `reverse` is set (spec §4.7). -/
def fixupOrder (f : FixupSpec) (keyed : List (Int × QuantumNode)) :
    List (Int × QuantumNode) :=
  let sorted := List.insertionSort keyRel keyed
  if f.reverse then sorted.reverse else sorted

/-- Dependency edges `(a, b)` — `b` depends on `a` — linking consecutive
nodes of the chained order. -/
def chainPairs : List (Int × QuantumNode) → List (Nat × Nat)
  | [] => []
  | [_] => []
  | a :: b :: rest => (a.2.index, b.2.index) :: chainPairs (b :: rest)

/-- Add to `n` the predecessors given by the chain edges that target it. -/
def addChainDeps (edges : List (Nat × Nat)) (n : QuantumNode) : QuantumNode :=
  { n with dependencies :=
      n.dependencies ++ (edges.filter (fun e => e.2 == n.index)).map Prod.fst }

/-- Modelled from the spec: `ExecFixupDataId.apply` (spec §4.3, §4.7).
Collect all nodes whose task label matches, read the integer data-id field
(failing loudly with a `KeyError`-equivalent if absent), sort ascending —
descending when `reverse` — and add a dependency edge from each node to the
next in that order. -/
def ExecFixupDataId.apply (f : FixupSpec) (g : GraphView) : Except String GraphView :=
  let matching := g.nodes.filter (fun n => n.taskDef.label == f.taskLabel)
  match matching.mapM (fun n => (dataIdGet n.dataId f.dataIdField).map (fun k => (k, n))) with
  | none => Except.error "KeyError"
  | some keyed =>
      Except.ok ⟨g.nodes.map (addChainDeps (chainPairs (fixupOrder f keyed)))⟩

/-- Apply the optional configured fixup (spec §4.6 Startup step 1). -/
def applyFixup (fixup : Option FixupSpec) (g : GraphView) : Except String GraphView :=
  match fixup with
  | none => Except.ok g
  | some f => ExecFixupDataId.apply f g

/-- Errors surfaced by `MPGraphExecutor.execute` (spec §7): the Python code
raises `MPGraphExecutorError` both for the unsupported-parallelism
configuration error and for the end-of-run graph-execution error, and
`MPTimeoutError` for timeouts; a fixup that cannot find the data-id field
propagates its `KeyError`. -/
inductive ExecResult
  | ok
  | fixupKeyError
  | cycleError
  | configError
  | timeoutError
  | graphExecError
deriving DecidableEq, Repr

/-- Final error selection (spec §7): `TimeoutError` when at least one node
was terminated for exceeding its deadline, otherwise a graph-execution error
when any node terminated non-`Succeeded`. -/
def classifyResult (st : ExecState) : ExecResult :=
  if st.finished.any (fun p => p.2 == NodeState.timedOut) then ExecResult.timeoutError
  else if st.finished.any (fun p => !(p.2 == NodeState.succeeded)) then ExecResult.graphExecError
  else ExecResult.ok

/-- Modelled from the spec: `MPGraphExecutor.execute` (spec §4.6).
Startup: apply the configured fixup, check for cycles, reject parallelism
above 1 when any task lacks multiprocess support — all before any dispatch —
then run the main loop over the topological iteration order and classify the
overall outcome. -/
def MPGraphExecutor.execute (cfg : ExecConfig) (g : GraphView) : ExecResult × ExecState :=
  match applyFixup cfg.fixup g with
  | Except.error _ => (ExecResult.fixupKeyError, initExecState)
  | Except.ok g2 =>
    let ts := g2.topoOrder
    if ts.2 = [] then
      if 1 < cfg.numProc ∧ g2.nodes.any (fun n => !n.taskDef.canMultiprocess) = true then
        (ExecResult.configError, initExecState)
      else
        let st := runStates cfg ts.1
        (classifyResult st, st)
    else
      (ExecResult.cycleError, initExecState)

/-- A dependency path `i → … → m`: `m` transitively depends on `i`. -/
inductive DependsPath (nodes : List QuantumNode) : Nat → Nat → Prop
  | direct {i : Nat} {n : QuantumNode} :
      n ∈ nodes → i ∈ n.dependencies → DependsPath nodes i n.index
  | extend {i j : Nat} {n : QuantumNode} :
      DependsPath nodes i j → n ∈ nodes → j ∈ n.dependencies → DependsPath nodes i n.index

/-! ## Concrete fixtures from the test scenarios (spec §8) -/

/-- `TaskDefMock(taskClass=TaskMockMP)`. -/
def okTask : TaskDef := ⟨"task1", true, .succeed⟩

/-- `TaskDefMock(taskClass=TaskMockFail)`. -/
def failingTask : TaskDef := ⟨"task1", true, .raiseError⟩

/-- `TaskDefMock(taskClass=TaskMockSleep)` — sleeps 5 seconds. -/
def sleepingTask : TaskDef := ⟨"task1", true, .sleep 5⟩

/-- `TaskDefMock(taskClass=TaskMockNoMP)` — no multiprocess support. -/
def noMPTask : TaskDef := ⟨"task1", false, .succeed⟩

/-- `QuantumIterDataMock(index=i, taskDef=t, detector=det)` with explicit
predecessor indices. -/
def mkNode (i : Nat) (t : TaskDef) (det : Int) (deps : List Nat) : QuantumNode :=
  ⟨i, t, [("detector", det)], deps⟩

/-- The detector values of the quanta the mock executor recorded. -/
def quantaDetectors (st : ExecState) : List (Option Int) :=
  st.quanta.map (fun n => dataIdGet n.dataId "detector")

/-- Cascading-skip graph (`test_mpexec_failure_dep`): five nodes, node 1
fails, node 2 depends on 1, node 4 depends on 3 and 2. -/
def graphDep : GraphView :=
  ⟨[mkNode 0 okTask 0 [], mkNode 1 failingTask 1 [], mkNode 2 okTask 2 [1],
    mkNode 3 okTask 3 [], mkNode 4 okTask 4 [3, 2]]⟩

/-- Three independent nodes, the middle one failing
(`test_mpexec_failure`). -/
def graphFailMid : GraphView :=
  ⟨[mkNode 0 okTask 0 [], mkNode 1 failingTask 1 [], mkNode 2 okTask 2 []]⟩

/-- Three independent nodes, the middle one sleeping 5 seconds
(`test_mpexec_timeout`). -/
def graphSleepMid : GraphView :=
  ⟨[mkNode 0 okTask 0 [], mkNode 1 sleepingTask 1 [], mkNode 2 okTask 2 []]⟩

/-- Three independent nodes of a task with no multiprocess support
(`test_mpexec_nompsupport`). -/
def graphNoMP : GraphView :=
  ⟨[mkNode 0 noMPTask 0 [], mkNode 1 noMPTask 1 [], mkNode 2 noMPTask 2 []]⟩

/-- Three-node straight-line graph with detectors 0,1,2
(`test_mpexec_nomp`). -/
def graphChain : GraphView :=
  ⟨[mkNode 0 okTask 0 [], mkNode 1 okTask 1 [0], mkNode 2 okTask 2 [1]]⟩

/-- Three independent nodes with detectors 0,1,2 (`test_mpexec_fixup`). -/
def graphFree : GraphView :=
  ⟨[mkNode 0 okTask 0 [], mkNode 1 okTask 1 [], mkNode 2 okTask 2 []]⟩

/-- `MPGraphExecutor(numProc=3, timeout=100)` — non-fail-fast parallel run. -/
def cfgPar : ExecConfig := ⟨3, 100, false, none⟩

/-- `MPGraphExecutor(numProc=3, timeout=1, failFast=True)`. -/
def cfgTimeoutFF : ExecConfig := ⟨3, 1, true, none⟩

/-- `MPGraphExecutor(numProc=3, timeout=3, failFast=False)`. -/
def cfgTimeoutNoFF : ExecConfig := ⟨3, 3, false, none⟩

/-- `MPGraphExecutor(numProc=1, timeout=100)`. -/
def cfgSerial : ExecConfig := ⟨1, 100, false, none⟩

/-- Serial config with the canonical fixup
`ExecFixupDataId("task1", "detector", reverse=reverse)`. -/
def cfgFix (reverse : Bool) : ExecConfig :=
  ⟨1, 100, false, some ⟨"task1", "detector", reverse⟩⟩

/-! ## `QuantumExecutor.getReport` (quantumGraphExecutor.py)

This class is among the shipped sources; its default `getReport` body is
literally `return None`.  The model keeps track of whether `execute` was
called before, because the docstring claims a `RuntimeError` in that case. -/

/-- Per-quantum report structure (opaque to the claims). -/
structure QuantumReport where
  status : NodeState
  message : String
deriving DecidableEq, Repr

/-- Result of a Python call: either a returned value or a raised exception. -/
inductive PyResult (α : Type) where
  | ok (value : α)
  | raised (exc : String)
deriving DecidableEq, Repr

/-- The default `QuantumExecutor.getReport` body (quantumGraphExecutor.py
lines 75–90): it ignores whether `execute` ran before and returns `None`. -/
def QuantumExecutor.getReportDefault (_executeCalled : Bool) :
    PyResult (Option QuantumReport) :=
  PyResult.ok none

/-! ## The run subcommand's argument definitions (cmdLineParser.py)

Each `add_argument` call of the groups installed on the `run` subparser is
embedded as one `ArgOption` record listing its option strings, the value
kind, and the integer default when one is set. -/

/-- Kind of value an option takes: a bare `store_true` flag, a string, an
`int`, or a `float`. -/
inductive ArgKind
  | flag
  | str
  | int
  | float
deriving DecidableEq, Repr

/-- One `add_argument` registration. -/
structure ArgOption where
  flags : List String
  kind : ArgKind
  defaultInt : Option Int
deriving DecidableEq, Repr

/-- `_makeLoggingOptions`. -/
def makeLoggingOptions : List ArgOption :=
  [⟨["-L", "--loglevel"], .str, none⟩,
   ⟨["--longlog"], .flag, none⟩,
   ⟨["--debug"], .flag, none⟩]

/-- `_makePipelineOptions`. -/
def makePipelineOptions : List ArgOption :=
  [⟨["-p", "--pipeline"], .str, none⟩,
   ⟨["-t", "--task"], .str, none⟩,
   ⟨["--delete"], .str, none⟩,
   ⟨["-c", "--config"], .str, none⟩,
   ⟨["-C", "--configfile"], .str, none⟩,
   ⟨["--order-pipeline"], .flag, none⟩,
   ⟨["-s", "--save-pipeline"], .str, none⟩,
   ⟨["--pipeline-dot"], .str, none⟩,
   ⟨["--instrument"], .str, none⟩]

/-- `_makeQuantumGraphOptions`. -/
def makeQuantumGraphOptions : List ArgOption :=
  [⟨["-g", "--qgraph"], .str, none⟩,
   ⟨["--skip-existing"], .flag, none⟩,
   ⟨["-q", "--save-qgraph"], .str, none⟩,
   ⟨["--save-single-quanta"], .str, none⟩,
   ⟨["--qgraph-dot"], .str, none⟩]

/-- `_makeButlerOptions`. -/
def makeButlerOptions : List ArgOption :=
  [⟨["-b", "--butler-config"], .str, none⟩,
   ⟨["-i", "--input"], .str, none⟩,
   ⟨["-o", "--output"], .str, none⟩,
   ⟨["--output-run"], .str, none⟩,
   ⟨["--extend-run"], .flag, none⟩,
   ⟨["--replace-run"], .flag, none⟩,
   ⟨["--prune-replaced"], .str, none⟩,
   ⟨["-d", "--data-query"], .str, none⟩]

/-- `_makeExecOptions` (cmdLineParser.py lines 382–402): `--doraise`,
`--profile`, `-j` and `--processes` (int, default 1), `--timeout` (float) and
`--graph-fixup` — and nothing else. -/
def makeExecOptions : List ArgOption :=
  [⟨["--doraise"], .flag, none⟩,
   ⟨["--profile"], .str, none⟩,
   ⟨["-j", "--processes"], .int, some 1⟩,
   ⟨["--timeout"], .float, none⟩,
   ⟨["--graph-fixup"], .str, none⟩]

/-- `_makeMetaOutputOptions`. -/
def makeMetaOutputOptions : List ArgOption :=
  [⟨["--skip-init-writes"], .flag, none⟩,
   ⟨["--init-only"], .flag, none⟩,
   ⟨["--register-dataset-types"], .flag, none⟩,
   ⟨["--no-versions"], .flag, none⟩]

/-- The full option set `makeParser` installs on the `run` subcommand, in
registration order: logging, pipeline, quantum-graph, butler, exec, meta
options, then the common `--show`. -/
def runSubcommandOptions : List ArgOption :=
  makeLoggingOptions ++ makePipelineOptions ++ makeQuantumGraphOptions ++
    makeButlerOptions ++ makeExecOptions ++ makeMetaOutputOptions ++
    [⟨["--show"], .str, none⟩]

/-- Whether the run subcommand's parser accepts a given option string. -/
def acceptsOptionString (s : String) : Bool :=
  runSubcommandOptions.any (fun o => o.flags.contains s)

/-- The option record registered for a given option string, if any. -/
def findOption (s : String) : Option ArgOption :=
  runSubcommandOptions.find? (fun o => o.flags.contains s)

/-! ## `DataIdMatch` (dataid_match.py)

The expression tree produced by the daf_butler expression parser is embedded
as `Expr`; `_DataIdMatchTreeVisitor` becomes the evaluator `evalExpr`, and
`DataIdMatch.match` becomes `DataIdMatch.matches` (`match` is a Lean
keyword).  Python runtime values flowing through the visitor are embedded as
`PyValue`; Python floats are modelled as exact rationals, and astropy time
literals as an ordinal.  Raised exceptions are the `Except` error channel. -/

/-- Exception kinds the evaluator can raise. -/
inductive PyExc
  | keyError
  | typeError
  | notImplementedError
  | valueError
  | zeroDivisionError
deriving DecidableEq, Repr

/-- A Python `range(start, stop, step)` object. -/
structure PyRange where
  start : Int
  stop : Int
  step : Int
deriving DecidableEq, Repr

/-- Python runtime values the visitor produces. -/
inductive PyValue
  | int (i : Int)
  | float (q : Rat)
  | str (s : String)
  | bool (b : Bool)
  | range (r : PyRange)
  | time (t : Int)
deriving DecidableEq, Repr

/-- A `DataId`: mapping from dimension names to values. -/
def DataId : Type := List (String × PyValue)

/-- `dataId[name]` lookup. -/
def dataIdLookup (d : DataId) (name : String) : Option PyValue :=
  (List.find? (fun p => p.1 == name) d).map Prod.snd

/-- Number of elements of a Python range. -/
def PyRange.size (r : PyRange) : Nat :=
  if r.step > 0 then ((r.stop - r.start + r.step - 1) / r.step).toNat
  else if r.step < 0 then ((r.start - r.stop + (-r.step) - 1) / (-r.step)).toNat
  else 0

/-- Coerce to an `int` the way Python arithmetic does (`bool` is an `int`
subclass). -/
def PyValue.asInt : PyValue → Option Int
  | .int i => some i
  | .bool b => some (if b then 1 else 0)
  | _ => none

/-- Coerce to a number (`int`, `bool` or `float`). -/
def PyValue.asNum : PyValue → Option Rat
  | .int i => some (i : Rat)
  | .bool b => some (if b then 1 else 0)
  | .float q => some q
  | _ => none

/-- Whether a float participates (mixed arithmetic then yields a float). -/
def PyValue.isFloat : PyValue → Bool
  | .float _ => true
  | _ => false

/-- Python truthiness of the embedded values. -/
def pyTruthy : PyValue → Bool
  | .int i => i != 0
  | .float q => q != 0
  | .str s => s != ""
  | .bool b => b
  | .range r => r.size != 0
  | .time _ => true

/-- `operator.not_`: logical negation via truthiness; never raises. -/
def pyNot (v : PyValue) : PyValue := .bool (!pyTruthy v)

/-- `operator.pos` (`+x`). -/
def pyPos : PyValue → Except PyExc PyValue
  | .int i => .ok (.int i)
  | .bool b => .ok (.int (if b then 1 else 0))
  | .float q => .ok (.float q)
  | _ => .error .typeError

/-- `operator.neg` (`-x`). -/
def pyNeg : PyValue → Except PyExc PyValue
  | .int i => .ok (.int (-i))
  | .bool b => .ok (.int (if b then -1 else 0))
  | .float q => .ok (.float (-q))
  | _ => .error .typeError

/-- `operator.add`. -/
def pyAdd : PyValue → PyValue → Except PyExc PyValue
  | .str s, .str t => .ok (.str (s ++ t))
  | a, b =>
    if a.isFloat || b.isFloat then
      match a.asNum, b.asNum with
      | some x, some y => .ok (.float (x + y))
      | _, _ => .error .typeError
    else
      match a.asInt, b.asInt with
      | some i, some j => .ok (.int (i + j))
      | _, _ => .error .typeError

/-- `operator.sub`. -/
def pySub (a b : PyValue) : Except PyExc PyValue :=
  if a.isFloat || b.isFloat then
    match a.asNum, b.asNum with
    | some x, some y => .ok (.float (x - y))
    | _, _ => .error .typeError
  else
    match a.asInt, b.asInt with
    | some i, some j => .ok (.int (i - j))
    | _, _ => .error .typeError

/-- String replication `s * n`. -/
def strRepeat (s : String) (n : Int) : String :=
  String.join (List.replicate n.toNat s)

/-- `operator.mul`. -/
def pyMul : PyValue → PyValue → Except PyExc PyValue
  | .str s, b =>
    match b.asInt with
    | some n => .ok (.str (strRepeat s n))
    | none => .error .typeError
  | a, .str t =>
    match a.asInt with
    | some n => .ok (.str (strRepeat t n))
    | none => .error .typeError
  | a, b =>
    if a.isFloat || b.isFloat then
      match a.asNum, b.asNum with
      | some x, some y => .ok (.float (x * y))
      | _, _ => .error .typeError
    else
      match a.asInt, b.asInt with
      | some i, some j => .ok (.int (i * j))
      | _, _ => .error .typeError

/-- `operator.truediv` — always a float in Python 3. -/
def pyDiv (a b : PyValue) : Except PyExc PyValue :=
  match a.asNum, b.asNum with
  | some x, some y => if y = 0 then .error .zeroDivisionError else .ok (.float (x / y))
  | _, _ => .error .typeError

/-- `operator.mod` — Python's floor-sign modulo. -/
def pyMod (a b : PyValue) : Except PyExc PyValue :=
  if a.isFloat || b.isFloat then
    match a.asNum, b.asNum with
    | some x, some y =>
      if y = 0 then .error .zeroDivisionError
      else .ok (.float (x - y * (⌊x / y⌋ : Int)))
    | _, _ => .error .typeError
  else
    match a.asInt, b.asInt with
    | some i, some j =>
      if j = 0 then .error .zeroDivisionError else .ok (.int (Int.fmod i j))
    | _, _ => .error .typeError

/-- Python `==` on the embedded values (total, never raises): numbers
compare by value across `int`/`bool`/`float`, ranges compare as sequences,
unrelated types are unequal. -/
def pyEqBool : PyValue → PyValue → Bool
  | .str s, .str t => s == t
  | .time a, .time b => a == b
  | .range r, .range s =>
    (r.size == 0 && s.size == 0) ||
      (r.size == s.size && r.start == s.start && (r.size == 1 || r.step == s.step))
  | a, b =>
    match a.asNum, b.asNum with
    | some x, some y => x == y
    | _, _ => false

/-- Python `<` (raises `TypeError` on unordered operand types). -/
def pyLtBool (a b : PyValue) : Except PyExc Bool :=
  match a, b with
  | .str s, .str t => .ok (decide (s < t))
  | .time x, .time y => .ok (decide (x < y))
  | a, b =>
    match a.asNum, b.asNum with
    | some x, some y => .ok (decide (x < y))
    | _, _ => .error .typeError

/-- Python `<=`. -/
def pyLeBool (a b : PyValue) : Except PyExc Bool :=
  match a, b with
  | .str s, .str t => .ok (decide (s < t) || s == t)
  | .time x, .time y => .ok (decide (x ≤ y))
  | a, b =>
    match a.asNum, b.asNum with
    | some x, some y => .ok (decide (x ≤ y))
    | _, _ => .error .typeError

/-- `operator.or_` — the bitwise `|`, defined on booleans and integers. -/
def pyOr : PyValue → PyValue → Except PyExc PyValue
  | .bool a, .bool b => .ok (.bool (a || b))
  | a, b =>
    match a.asInt, b.asInt with
    | some i, some j => .ok (.int (Int.lor i j))
    | _, _ => .error .typeError

/-- `operator.and_` — the bitwise `&`, defined on booleans and integers. -/
def pyAnd : PyValue → PyValue → Except PyExc PyValue
  | .bool a, .bool b => .ok (.bool (a && b))
  | a, b =>
    match a.asInt, b.asInt with
    | some i, some j => .ok (.int (Int.land i j))
    | _, _ => .error .typeError

/-- Unary operator names understood by `visitUnaryOp`. -/
inductive UnaryOpName
  | notOp
  | pos
  | neg
deriving DecidableEq, Repr

/-- Binary operator names understood by `visitBinaryOp`. -/
inductive BinaryOpName
  | orOp
  | andOp
  | add
  | sub
  | mul
  | div
  | mod
  | eq
  | ne
  | lt
  | gt
  | le
  | ge
deriving DecidableEq, Repr

/-- `visitUnaryOp`'s operator table. -/
def applyUnary (op : UnaryOpName) (v : PyValue) : Except PyExc PyValue :=
  match op with
  | .notOp => .ok (pyNot v)
  | .pos => pyPos v
  | .neg => pyNeg v

/-- `visitBinaryOp`'s operator table. -/
def applyBinary (op : BinaryOpName) (a b : PyValue) : Except PyExc PyValue :=
  match op with
  | .orOp => pyOr a b
  | .andOp => pyAnd a b
  | .add => pyAdd a b
  | .sub => pySub a b
  | .mul => pyMul a b
  | .div => pyDiv a b
  | .mod => pyMod a b
  | .eq => .ok (.bool (pyEqBool a b))
  | .ne => .ok (.bool (!pyEqBool a b))
  | .lt => (pyLtBool a b).map PyValue.bool
  | .gt => (pyLtBool b a).map PyValue.bool
  | .le => (pyLeBool a b).map PyValue.bool
  | .ge => (pyLeBool b a).map PyValue.bool

/-- Python `x in range(...)`: arithmetic membership for integral values,
everything else scans by equality and never matches. -/
def rangeContains (r : PyRange) (v : PyValue) : Bool :=
  match v.asNum with
  | none => false
  | some q =>
    q.den == 1 &&
      (let i := q.num
       if r.step > 0 then
         r.start ≤ i && i < r.stop && Int.fmod (i - r.start) r.step == 0
       else if r.step < 0 then
         r.stop < i && i ≤ r.start && Int.fmod (r.start - i) (-r.step) == 0
       else false)

/-- `visitIsIn` (dataid_match.py lines 94–106): each candidate that is a
range is tested by membership, any other candidate by equality; `not_in`
flips the result. -/
def pyIsIn (lhs : PyValue) (vals : List PyValue) (notIn : Bool) : Bool :=
  let isin := vals.any (fun v =>
    match v with
    | .range r => rangeContains r lhs
    | w => pyEqBool lhs w)
  if notIn then !isin else isin

/-- Accumulate a digit string into a number; `none` on a non-digit. -/
def parseDigitsAux : List Char → Nat → Option Nat
  | [], acc => some acc
  | c :: cs, acc =>
    if c.isDigit then parseDigitsAux cs (acc * 10 + (c.toNat - 48)) else none

/-- Parse a nonempty digit string. -/
def parseDigits : List Char → Option Nat
  | [] => none
  | cs => parseDigitsAux cs 0

/-- Strip an optional leading sign, returning whether it was `-`. -/
def stripSign : List Char → Bool × List Char
  | '-' :: cs => (true, cs)
  | '+' :: cs => (false, cs)
  | cs => (false, cs)

/-- Split at the single decimal point, if there is exactly one. -/
def splitAtDot : List Char → Option (List Char × List Char)
  | [] => none
  | '.' :: rest => if rest.contains '.' then none else some ([], rest)
  | c :: rest => (splitAtDot rest).map (fun p => (c :: p.1, p.2))

/-- `int(value)` for a decimal literal string. -/
def pyParseInt (s : String) : Option Int :=
  let (neg, cs) := stripSign s.data
  (parseDigits cs).map (fun n => if neg then -(n : Int) else (n : Int))

/-- `float(value)` for a plain decimal literal, as an exact rational
(exponent notation is not modelled). -/
def parseDecimalRat (s : String) : Option Rat :=
  let (neg, cs) := stripSign s.data
  match splitAtDot cs with
  | none => none
  | some (a, b) =>
    if a.isEmpty && b.isEmpty then none
    else
      match (if a.isEmpty then some 0 else parseDigits a),
          (if b.isEmpty then some 0 else parseDigits b) with
      | some whole, some frac =>
        let scale : Rat := (10 : Rat) ^ b.length
        let mag : Rat := (whole : Rat) + (frac : Rat) / scale
        some (if neg then -mag else mag)
      | _, _ => none

/-- `visitNumericLiteral`: `int(value)`, falling back to `float(value)`;
an unparsable literal raises `ValueError`. -/
def visitNumericLiteral (s : String) : Except PyExc PyValue :=
  match pyParseInt s with
  | some i => .ok (.int i)
  | none =>
    match parseDecimalRat s with
    | some q => .ok (.float q)
    | none => .error .valueError

/-- `visitRangeLiteral`: `range(start, stop + 1[, stride])`; Python's
`range` constructor raises `ValueError` on a zero step. -/
def visitRangeLiteral (start stop : Int) (stride : Option Int) : Except PyExc PyValue :=
  match stride with
  | none => .ok (.range ⟨start, stop + 1, 1⟩)
  | some s => if s = 0 then .error .valueError else .ok (.range ⟨start, stop + 1, s⟩)

mutual

/-- The parsed expression tree (`lsst.daf.butler` expression nodes). -/
inductive Expr
  | num (value : String)
  | strLit (value : String)
  | timeLit (value : Int)
  | rangeLit (start stop : Int) (stride : Option Int)
  | ident (name : String)
  | unaryOp (op : UnaryOpName) (operand : Expr)
  | binaryOp (op : BinaryOpName) (lhs rhs : Expr)
  | isIn (lhs : Expr) (values : ExprList) (notIn : Bool)
  | parens (e : Expr)
  | tuple (items : ExprList)
  | functionCall (name : String) (args : ExprList)
  | pointNode (ra dec : Expr)

/-- A list of expression nodes (children of `IN`, tuples and calls). -/
inductive ExprList
  | nil
  | cons (e : Expr) (rest : ExprList)

end

mutual

/-- `tree.visit(_DataIdMatchTreeVisitor(dataId))`: children are visited
left to right before the parent node's handler runs, so the first raised
exception propagates. -/
def evalExpr : Expr → DataId → Except PyExc PyValue
  | .num s, _ => visitNumericLiteral s
  | .strLit s, _ => .ok (.str s)
  | .timeLit t, _ => .ok (.time t)
  | .rangeLit a b stride, _ => visitRangeLiteral a b stride
  | .ident name, d =>
    match dataIdLookup d name with
    | some v => .ok v
    | none => .error .keyError
  | .unaryOp op e, d =>
    match evalExpr e d with
    | .error exc => .error exc
    | .ok v => applyUnary op v
  | .binaryOp op l r, d =>
    match evalExpr l d with
    | .error exc => .error exc
    | .ok lv =>
      match evalExpr r d with
      | .error exc => .error exc
      | .ok rv => applyBinary op lv rv
  | .isIn lhs vals notIn, d =>
    match evalExpr lhs d with
    | .error exc => .error exc
    | .ok lv =>
      match evalList vals d with
      | .error exc => .error exc
      | .ok vs => .ok (.bool (pyIsIn lv vs notIn))
  | .parens e, d => evalExpr e d
  | .tuple items, d =>
    match evalList items d with
    | .error exc => .error exc
    | .ok _ => .error .notImplementedError
  | .functionCall _ args, d =>
    match evalList args d with
    | .error exc => .error exc
    | .ok _ => .error .notImplementedError
  | .pointNode ra dec, d =>
    match evalExpr ra d with
    | .error exc => .error exc
    | .ok _ =>
      match evalExpr dec d with
      | .error exc => .error exc
      | .ok _ => .error .notImplementedError
termination_by structural e => e

/-- Visit every child, propagating the first raised exception. -/
def evalList : ExprList → DataId → Except PyExc (List PyValue)
  | .nil, _ => .ok []
  | .cons e rest, d =>
    match evalExpr e d with
    | .error exc => .error exc
    | .ok v =>
      match evalList rest d with
      | .error exc => .error exc
      | .ok vs => .ok (v :: vs)
termination_by structural l => l

end

/-- `DataIdMatch.match` (dataid_match.py lines 141–170): evaluate the parsed
tree against the DataId and raise `TypeError` unless the result is a
boolean. -/
def DataIdMatch.matches (tree : Expr) (dataId : DataId) : Except PyExc Bool :=
  match evalExpr tree dataId with
  | .error exc => .error exc
  | .ok (.bool b) => .ok b
  | .ok _ => .error .typeError

/-- The emitted list is consistent: every node's dependencies are contained
in `done` together with the indices of the earlier emitted nodes. -/
def chainOK (done : List Nat) : List QuantumNode → Prop
  | [] => True
  | n :: rest => depsSatisfied done n = true ∧ chainOK (n.index :: done) rest

/-! ## Basic lemmas about the recorded states -/

theorem stateOf_eq_pending_of_not_mem {fin : List (Nat × NodeState)} {i : Nat}
    (h : i ∉ fin.map Prod.fst) : stateOf fin i = NodeState.pending := by
  unfold stateOf
  have hfind : fin.find? (fun p => p.1 == i) = none := by
    rw [List.find?_eq_none]
    intro p hp hbeq
    exact h (List.mem_map.mpr ⟨p, hp, (beq_iff_eq.mp hbeq)⟩)
  rw [hfind]

theorem stateOf_append_of_ne_pending {fin l : List (Nat × NodeState)} {i : Nat}
    (h : stateOf fin i ≠ NodeState.pending) :
    stateOf (fin ++ l) i = stateOf fin i := by
  unfold stateOf at *
  cases hfind : fin.find? (fun p => p.1 == i) with
  | none => rw [hfind] at h; exact absurd rfl h
  | some p => rw [List.find?_append, hfind]; rfl

theorem stateOf_append_singleton {fin : List (Nat × NodeState)} {i : Nat}
    (s : NodeState) (h : i ∉ fin.map Prod.fst) :
    stateOf (fin ++ [(i, s)]) i = s := by
  unfold stateOf
  have hfind : fin.find? (fun p => p.1 == i) = none := by
    rw [List.find?_eq_none]
    intro p hp hbeq
    exact h (List.mem_map.mpr ⟨p, hp, (beq_iff_eq.mp hbeq)⟩)
  rw [List.find?_append, hfind]
  simp

theorem stateOf_of_mem_nodup {fin : List (Nat × NodeState)} {i : Nat} {s : NodeState}
    (hnd : (fin.map Prod.fst).Nodup) (hmem : (i, s) ∈ fin) :
    stateOf fin i = s := by
  induction fin with
  | nil => cases hmem
  | cons p rest ih =>
    rcases List.mem_cons.mp hmem with h | h
    · subst h; unfold stateOf; simp
    · have hne : p.1 ≠ i := by
        intro he
        have : i ∈ rest.map Prod.fst := List.mem_map.mpr ⟨(i, s), h, rfl⟩
        rw [List.map_cons] at hnd
        exact (List.nodup_cons.mp hnd).1 (he ▸ this)
      have hrest := ih (List.nodup_cons.mp (by rw [List.map_cons] at hnd; exact hnd)).2 h
      unfold stateOf at *
      have : (fun (q : Nat × NodeState) => q.1 == i) p = false := by
        simp [hne]
      rw [List.find?_cons_of_neg _ (by simp [this, hne])]
      exact hrest

/-! ## Shape of one scheduling step -/

theorem processNode_finished (cfg : ExecConfig) (st : ExecState) (n : QuantumNode) :
    (processNode cfg st n).finished
      = st.finished ++ [(n.index, recordedState cfg st n)] := by
  unfold processNode recordedState dispatchCondB
  by_cases h1 : st.stopped
  · simp [h1]
  · by_cases h2 : n.dependencies.all (fun d => stateOf st.finished d == NodeState.succeeded)
    · simp [h1, h2]
    · simp [h1, h2]

theorem processNode_dispatched (cfg : ExecConfig) (st : ExecState) (n : QuantumNode) :
    (processNode cfg st n).dispatched
      = st.dispatched ++ (if dispatchCondB st n = true then [n] else []) := by
  unfold processNode dispatchCondB
  by_cases h1 : st.stopped
  · simp [h1]
  · by_cases h2 : n.dependencies.all (fun d => stateOf st.finished d == NodeState.succeeded)
    · simp [h1, h2]
    · simp [h1, h2]

theorem processNode_quanta (cfg : ExecConfig) (st : ExecState) (n : QuantumNode) :
    (processNode cfg st n).quanta
      = st.quanta ++
        (if dispatchCondB st n = true ∧
            runOutcome cfg.timeout n.taskDef.behavior = NodeState.succeeded
         then [n] else []) := by
  unfold processNode dispatchCondB
  by_cases h1 : st.stopped
  · simp [h1]
  · by_cases h2 : n.dependencies.all (fun d => stateOf st.finished d == NodeState.succeeded)
    · by_cases h3 : runOutcome cfg.timeout n.taskDef.behavior = NodeState.succeeded
      · simp [h1, h2, h3]
      · simp [h1, h2, h3]
    · simp [h1, h2]

theorem processNode_stopped_of_not_failFast {cfg : ExecConfig}
    (hff : cfg.failFast = false) (st : ExecState) (n : QuantumNode) :
    (processNode cfg st n).stopped = st.stopped := by
  unfold processNode
  by_cases h1 : st.stopped
  · simp [h1]
  · by_cases h2 : n.dependencies.all (fun d => stateOf st.finished d == NodeState.succeeded)
    · simp [h1, h2, hff]
    · simp [h1, h2]

theorem recordedState_ne_pending (cfg : ExecConfig) (st : ExecState) (n : QuantumNode) :
    recordedState cfg st n ≠ NodeState.pending := by
  unfold recordedState
  by_cases h : dispatchCondB st n
  · simp only [h, if_true]
    unfold runOutcome
    cases n.taskDef.behavior <;> simp
    split <;> simp
  · simp [h]

theorem runOutcome_cases (timeout : Nat) (b : TaskBehavior) :
    runOutcome timeout b = NodeState.succeeded ∨ runOutcome timeout b = NodeState.failed ∨
      runOutcome timeout b = NodeState.timedOut := by
  unfold runOutcome
  cases b with
  | succeed => exact Or.inl rfl
  | raiseError => exact Or.inr (Or.inl rfl)
  | noTaskClass => exact Or.inl rfl
  | sleep s =>
    by_cases h : timeout < s
    · exact Or.inr (Or.inr (by simp [h]))
    · exact Or.inl (by simp [h])

/-! ## Lemmas about folding the main loop over a dispatch order -/

theorem fold_stateOf_mono (cfg : ExecConfig) :
    ∀ (l : List QuantumNode) (st : ExecState) (i : Nat),
      stateOf st.finished i ≠ NodeState.pending →
      stateOf (l.foldl (processNode cfg) st).finished i = stateOf st.finished i := by
  intro l
  induction l with
  | nil => intro st i _; rfl
  | cons a rest ih =>
    intro st i h
    have hstep : stateOf (processNode cfg st a).finished i = stateOf st.finished i := by
      rw [processNode_finished]
      exact stateOf_append_of_ne_pending h
    rw [List.foldl_cons, ih (processNode cfg st a) i (by rw [hstep]; exact h), hstep]

theorem fold_finished_map_fst (cfg : ExecConfig) :
    ∀ (l : List QuantumNode) (st : ExecState),
      ((l.foldl (processNode cfg) st).finished.map Prod.fst)
        = st.finished.map Prod.fst ++ l.map QuantumNode.index := by
  intro l
  induction l with
  | nil => intro st; simp
  | cons a rest ih =>
    intro st
    rw [List.foldl_cons, ih, processNode_finished]
    simp

theorem fold_dispatched_extends (cfg : ExecConfig) :
    ∀ (l : List QuantumNode) (st : ExecState),
      ∃ added, (l.foldl (processNode cfg) st).dispatched = st.dispatched ++ added ∧
        List.Sublist added l := by
  intro l
  induction l with
  | nil => intro st; exact ⟨[], by simp, List.Sublist.refl []⟩
  | cons a rest ih =>
    intro st
    obtain ⟨added, hadd, hsub⟩ := ih (processNode cfg st a)
    rw [List.foldl_cons]
    by_cases h : dispatchCondB st a = true
    · refine ⟨a :: added, ?_, List.Sublist.cons₂ a hsub⟩
      rw [hadd, processNode_dispatched, if_pos h]
      simp
    · refine ⟨added, ?_, List.Sublist.cons a hsub⟩
      rw [hadd, processNode_dispatched, if_neg h]
      simp

theorem fold_stopped_of_not_failFast {cfg : ExecConfig} (hff : cfg.failFast = false) :
    ∀ (l : List QuantumNode) (st : ExecState),
      (l.foldl (processNode cfg) st).stopped = st.stopped := by
  intro l
  induction l with
  | nil => intro st; rfl
  | cons a rest ih =>
    intro st
    rw [List.foldl_cons, ih, processNode_stopped_of_not_failFast hff]

theorem fold_entry_cases (cfg : ExecConfig) :
    ∀ (l : List QuantumNode) (st : ExecState),
      ∀ p ∈ (l.foldl (processNode cfg) st).finished,
        p ∈ st.finished ∨ p.2 = NodeState.skipped ∨
          ∃ n ∈ l, p.1 = n.index ∧ p.2 = runOutcome cfg.timeout n.taskDef.behavior := by
  intro l
  induction l with
  | nil => intro st p hp; exact Or.inl hp
  | cons a rest ih =>
    intro st p hp
    rw [List.foldl_cons] at hp
    rcases ih (processNode cfg st a) p hp with h | h | ⟨n, hn, h1, h2⟩
    · rw [processNode_finished] at h
      rcases List.mem_append.mp h with h | h
      · exact Or.inl h
      · have : p = (a.index, recordedState cfg st a) := by simpa using h
        subst this
        unfold recordedState
        by_cases hc : dispatchCondB st a
        · exact Or.inr (Or.inr ⟨a, List.mem_cons_self a rest, rfl, by simp [hc]⟩)
        · exact Or.inr (Or.inl (by simp [hc]))
    · exact Or.inr (Or.inl h)
    · exact Or.inr (Or.inr ⟨n, List.mem_cons_of_mem a hn, h1, h2⟩)

theorem fold_quanta_filter (cfg : ExecConfig) :
    ∀ (l : List QuantumNode) (st : ExecState),
      st.quanta = st.dispatched.filter
          (fun n => runOutcome cfg.timeout n.taskDef.behavior == NodeState.succeeded) →
      (l.foldl (processNode cfg) st).quanta
        = (l.foldl (processNode cfg) st).dispatched.filter
            (fun n => runOutcome cfg.timeout n.taskDef.behavior == NodeState.succeeded) := by
  intro l
  induction l with
  | nil => intro st h; exact h
  | cons a rest ih =>
    intro st h
    rw [List.foldl_cons]
    apply ih
    rw [processNode_quanta, processNode_dispatched, List.filter_append, h]
    congr 1
    by_cases hc : dispatchCondB st a = true
    · by_cases ho : runOutcome cfg.timeout a.taskDef.behavior = NodeState.succeeded
      · simp [hc, ho]
      · simp [hc, ho]
    · simp [hc]

/-! ## Topological iteration -/

theorem topoLoop_spec :
    ∀ (fuel : Nat) (remaining : List QuantumNode) (done : List Nat)
      (acc : List QuantumNode),
      (∃ tail, (topoLoop fuel remaining done acc).1 = acc.reverse ++ tail ∧
        chainOK done tail) ∧
      List.Perm ((topoLoop fuel remaining done acc).1 ++ (topoLoop fuel remaining done acc).2)
        (acc.reverse ++ remaining) := by
  intro fuel
  induction fuel with
  | zero =>
    intro remaining done acc
    exact ⟨⟨[], by simp [topoLoop], trivial⟩, by simp [topoLoop]⟩
  | succ fuel ih =>
    intro remaining done acc
    unfold topoLoop
    cases hfind : remaining.find? (depsSatisfied done) with
    | none => exact ⟨⟨[], by simp, trivial⟩, by simp⟩
    | some n =>
      have hmem : n ∈ remaining := List.mem_of_find?_eq_some hfind
      have hsat : depsSatisfied done n = true := List.find?_some hfind
      obtain ⟨⟨tail, htail, hchain⟩, hperm⟩ := ih (remaining.erase n) (n.index :: done) (n :: acc)
      constructor
      · refine ⟨n :: tail, ?_, hsat, hchain⟩
        rw [htail]
        simp
      · have hstep : List.Perm (acc.reverse ++ remaining)
            ((n :: acc).reverse ++ remaining.erase n) := by
          have h1 : List.Perm remaining (n :: remaining.erase n) := List.perm_cons_erase hmem
          calc List.Perm (acc.reverse ++ remaining) (acc.reverse ++ (n :: remaining.erase n)) :=
                 List.Perm.append_left acc.reverse h1
            _ = (acc.reverse ++ [n]) ++ remaining.erase n := by simp
            _ = (n :: acc).reverse ++ remaining.erase n := by simp
        exact hperm.trans hstep.symm

theorem topoOrder_chainOK (g : GraphView) : ∃ tail, g.topoOrder.1 = tail ∧ chainOK [] tail := by
  obtain ⟨⟨tail, htail, hchain⟩, _⟩ := topoLoop_spec g.nodes.length g.nodes [] []
  exact ⟨tail, by simpa [GraphView.topoOrder] using htail, hchain⟩

theorem topoOrder_perm (g : GraphView) (h : g.topoOrder.2 = []) :
    List.Perm g.topoOrder.1 g.nodes := by
  obtain ⟨-, hperm⟩ := topoLoop_spec g.nodes.length g.nodes [] []
  have := hperm
  rw [show topoLoop g.nodes.length g.nodes [] [] = g.topoOrder from rfl] at this
  rw [h] at this
  simpa using this

theorem chainOK_split :
    ∀ (l₁ : List QuantumNode) (done : List Nat) (n : QuantumNode) (l₂ : List QuantumNode),
      chainOK done (l₁ ++ n :: l₂) →
      ∀ d ∈ n.dependencies, d ∈ done ∨ d ∈ l₁.map QuantumNode.index := by
  intro l₁
  induction l₁ with
  | nil =>
    intro done n l₂ h d hd
    obtain ⟨hsat, -⟩ := h
    unfold depsSatisfied at hsat
    have := List.all_eq_true.mp hsat d hd
    exact Or.inl (by simpa using this)
  | cons a rest ih =>
    intro done n l₂ h d hd
    obtain ⟨-, hrest⟩ := h
    rcases ih (a.index :: done) n l₂ hrest d hd with h | h
    · rcases List.mem_cons.mp h with h | h
      · exact Or.inr (by simp [h])
      · exact Or.inl h
    · exact Or.inr (by simp [h])

/-- Splitting a list with index-distinct nodes around one element. -/
theorem nodup_split_not_mem {l₁ : List QuantumNode} {n : QuantumNode} {l₂ : List QuantumNode}
    (h : ((l₁ ++ n :: l₂).map QuantumNode.index).Nodup) :
    n.index ∉ l₁.map QuantumNode.index ∧ n.index ∉ l₂.map QuantumNode.index := by
  rw [List.map_append, List.map_cons, List.nodup_append] at h
  obtain ⟨-, h2, h3⟩ := h
  constructor
  · intro hmem
    exact h3 hmem (List.mem_cons_self _ _)
  · exact (List.nodup_cons.mp h2).1

/-! ## The executor entry point -/

theorem execute_cases (cfg : ExecConfig) (g : GraphView) (res : ExecResult) (st : ExecState)
    (hfix : cfg.fixup = none)
    (h : MPGraphExecutor.execute cfg g = (res, st)) :
    (st = initExecState ∧ (res = ExecResult.cycleError ∨ res = ExecResult.configError)) ∨
    (g.topoOrder.2 = [] ∧ st = runStates cfg g.topoOrder.1 ∧ res = classifyResult st ∧
      ¬(1 < cfg.numProc ∧ g.nodes.any (fun n => !n.taskDef.canMultiprocess) = true)) := by
  unfold MPGraphExecutor.execute at h
  rw [hfix] at h
  simp only [applyFixup] at h
  by_cases hcyc : g.topoOrder.2 = []
  · rw [if_pos hcyc] at h
    by_cases hmp : 1 < cfg.numProc ∧ g.nodes.any (fun n => !n.taskDef.canMultiprocess) = true
    · rw [if_pos hmp] at h
      obtain ⟨h1, h2⟩ := Prod.mk.injEq .. ▸ h
      exact Or.inl ⟨h2.symm, Or.inr h1.symm⟩
    · rw [if_neg hmp] at h
      obtain ⟨h1, h2⟩ := Prod.mk.injEq .. ▸ h
      exact Or.inr ⟨hcyc, h2.symm, by rw [← h1, h2], hmp⟩
  · rw [if_neg hcyc] at h
    obtain ⟨h1, h2⟩ := Prod.mk.injEq .. ▸ h
    exact Or.inl ⟨h2.symm, Or.inl h1.symm⟩

/-! ## Final error classification -/

theorem classify_timeout {st : ExecState}
    (h : ∃ p ∈ st.finished, p.2 = NodeState.timedOut) :
    classifyResult st = ExecResult.timeoutError := by
  unfold classifyResult
  rw [if_pos]
  rw [List.any_eq_true]
  obtain ⟨p, hp, h2⟩ := h
  exact ⟨p, hp, by simp [h2]⟩

theorem classify_graphExec {st : ExecState}
    (hnt : ∀ p ∈ st.finished, p.2 ≠ NodeState.timedOut)
    (h : ∃ p ∈ st.finished, p.2 ≠ NodeState.succeeded) :
    classifyResult st = ExecResult.graphExecError := by
  unfold classifyResult
  rw [if_neg, if_pos]
  · rw [List.any_eq_true]
    obtain ⟨p, hp, h2⟩ := h
    exact ⟨p, hp, by simp [h2]⟩
  · rw [List.any_eq_true]
    rintro ⟨p, hp, h2⟩
    exact hnt p hp (by simpa using h2)

theorem classify_ok {st : ExecState}
    (h : ∀ p ∈ st.finished, p.2 = NodeState.succeeded) :
    classifyResult st = ExecResult.ok := by
  unfold classifyResult
  rw [if_neg, if_neg]
  · rw [List.any_eq_true]
    rintro ⟨p, hp, h2⟩
    exact (by simpa using h2 : ¬(p.2 = NodeState.succeeded)) (h p hp)
  · rw [List.any_eq_true]
    rintro ⟨p, hp, h2⟩
    rw [h p hp] at h2
    simp at h2

/-! ## Characterization of a node's fate in the main loop -/

theorem fold_char (cfg : ExecConfig) :
    ∀ (l₁ : List QuantumNode) (n : QuantumNode) (l₂ : List QuantumNode) (st0 : ExecState),
      n.index ∉ st0.finished.map Prod.fst →
      n.index ∉ l₁.map QuantumNode.index →
      n.index ∉ l₂.map QuantumNode.index →
      stateOf ((l₁ ++ n :: l₂).foldl (processNode cfg) st0).finished n.index
          = recordedState cfg (l₁.foldl (processNode cfg) st0) n
        ∧ ((n ∈ ((l₁ ++ n :: l₂).foldl (processNode cfg) st0).dispatched) ↔
            (n ∈ st0.dispatched ∨ dispatchCondB (l₁.foldl (processNode cfg) st0) n = true)) := by
  intro l₁
  induction l₁ with
  | nil =>
    intro n l₂ st0 h0 _ h2
    simp only [List.nil_append, List.foldl_cons, List.foldl_nil]
    constructor
    · have hst1 : stateOf (processNode cfg st0 n).finished n.index
          = recordedState cfg st0 n := by
        rw [processNode_finished]
        exact stateOf_append_singleton _ h0
      rw [fold_stateOf_mono cfg l₂ (processNode cfg st0 n) n.index
        (by rw [hst1]; exact recordedState_ne_pending cfg st0 n), hst1]
    · obtain ⟨added, hadd, hsub⟩ := fold_dispatched_extends cfg l₂ (processNode cfg st0 n)
      rw [hadd, processNode_dispatched]
      constructor
      · intro hmem
        rcases List.mem_append.mp hmem with hmem | hmem
        · rcases List.mem_append.mp hmem with hmem | hmem
          · exact Or.inl hmem
          · by_cases hc : dispatchCondB st0 n = true
            · exact Or.inr hc
            · rw [if_neg hc] at hmem; cases hmem
        · exact absurd (List.mem_map.mpr ⟨n, hsub.subset hmem, rfl⟩) h2
      · rintro (hmem | hc)
        · exact List.mem_append.mpr (Or.inl (List.mem_append.mpr (Or.inl hmem)))
        · exact List.mem_append.mpr (Or.inl (List.mem_append.mpr (Or.inr (by simp [hc]))))
  | cons a rest ih =>
    intro n l₂ st0 h0 h1 h2
    have hne : n.index ≠ a.index := by
      intro he
      exact h1 (by simp [he])
    have h1' : n.index ∉ rest.map QuantumNode.index := by
      intro hmem
      exact h1 (by simp [hmem])
    have h0' : n.index ∉ (processNode cfg st0 a).finished.map Prod.fst := by
      rw [processNode_finished]
      intro hmem
      rcases List.mem_map.mp hmem with ⟨p, hp, hfst⟩
      rcases List.mem_append.mp hp with hp | hp
      · exact h0 (List.mem_map.mpr ⟨p, hp, hfst⟩)
      · have : p = (a.index, recordedState cfg st0 a) := by simpa using hp
        exact hne (by rw [← hfst, this])
    have := ih n l₂ (processNode cfg st0 a) h0' h1' h2
    simp only [List.cons_append, List.foldl_cons]
    refine ⟨this.1, this.2.trans ?_⟩
    constructor
    · rintro (hmem | hc)
      · rw [processNode_dispatched] at hmem
        rcases List.mem_append.mp hmem with hmem | hmem
        · exact Or.inl hmem
        · by_cases hc : dispatchCondB st0 a = true
          · rw [if_pos hc] at hmem
            have : n = a := by simpa using hmem
            exact absurd (congrArg QuantumNode.index this) hne
          · rw [if_neg hc] at hmem; cases hmem
      · exact Or.inr hc
    · rintro (hmem | hc)
      · exact Or.inl (by rw [processNode_dispatched]; exact List.mem_append.mpr (Or.inl hmem))
      · exact Or.inr hc

/-! ## Derived scheduling facts -/

theorem fold_dispatched_deps_succeeded (cfg : ExecConfig) :
    ∀ (l : List QuantumNode) (st : ExecState),
      (∀ n ∈ st.dispatched, ∀ d ∈ n.dependencies,
        stateOf st.finished d = NodeState.succeeded) →
      ∀ n ∈ (l.foldl (processNode cfg) st).dispatched, ∀ d ∈ n.dependencies,
        stateOf (l.foldl (processNode cfg) st).finished d = NodeState.succeeded := by
  intro l
  induction l with
  | nil => intro st h; exact h
  | cons a rest ih =>
    intro st h
    rw [List.foldl_cons]
    apply ih
    intro n hn d hd
    rw [processNode_finished]
    rw [processNode_dispatched] at hn
    rcases List.mem_append.mp hn with hn | hn
    · have := h n hn d hd
      rw [stateOf_append_of_ne_pending (by rw [this]; simp)]
      exact this
    · by_cases hc : dispatchCondB st a = true
      · rw [if_pos hc] at hn
        have hna : n = a := by simpa using hn
        subst hna
        unfold dispatchCondB at hc
        have hall := (Bool.and_eq_true _ _).mp hc |>.2
        have := List.all_eq_true.mp hall d hd
        have hdep : stateOf st.finished d = NodeState.succeeded := by simpa using this
        rw [stateOf_append_of_ne_pending (by rw [hdep]; simp)]
        exact hdep
      · rw [if_neg hc] at hn; cases hn

theorem fold_dispatched_state (cfg : ExecConfig) (order : List QuantumNode)
    (hnodup : (order.map QuantumNode.index).Nodup) :
    ∀ n ∈ (runStates cfg order).dispatched,
      stateOf (runStates cfg order).finished n.index
        = runOutcome cfg.timeout n.taskDef.behavior := by
  intro n hn
  obtain ⟨added, hadd, hsub⟩ := fold_dispatched_extends cfg order initExecState
  have hmem : n ∈ order := by
    have := hadd ▸ hn
    simpa [initExecState] using hsub.subset (by simpa [initExecState] using this)
  obtain ⟨l₁, l₂, hsplit⟩ := List.append_of_mem hmem
  subst hsplit
  obtain ⟨hnotmem₁, hnotmem₂⟩ := nodup_split_not_mem hnodup
  have hchar := fold_char cfg l₁ n l₂ initExecState (by simp [initExecState]) hnotmem₁ hnotmem₂
  have hcond : dispatchCondB (l₁.foldl (processNode cfg) initExecState) n = true := by
    rcases hchar.2.mp hn with h | h
    · simp [initExecState] at h
    · exact h
  unfold runStates
  rw [hchar.1]
  unfold recordedState
  rw [if_pos hcond]

theorem fold_skip_of_dep_not_succeeded (cfg : ExecConfig) (order : List QuantumNode)
    (hnodup : (order.map QuantumNode.index).Nodup) :
    ∀ nm ∈ order, ∀ j ∈ nm.dependencies,
      stateOf (runStates cfg order).finished j ≠ NodeState.succeeded →
      stateOf (runStates cfg order).finished nm.index = NodeState.skipped ∧
        nm ∉ (runStates cfg order).dispatched := by
  intro nm hmem j hj hns
  obtain ⟨l₁, l₂, hsplit⟩ := List.append_of_mem hmem
  subst hsplit
  obtain ⟨hnotmem₁, hnotmem₂⟩ := nodup_split_not_mem hnodup
  have hchar := fold_char cfg l₁ nm l₂ initExecState (by simp [initExecState]) hnotmem₁ hnotmem₂
  have hcond : dispatchCondB (l₁.foldl (processNode cfg) initExecState) nm = false := by
    by_contra hfalse
    have hcond : dispatchCondB (l₁.foldl (processNode cfg) initExecState) nm = true := by
      simpa using hfalse
    unfold dispatchCondB at hcond
    have hall := (Bool.and_eq_true _ _).mp hcond |>.2
    have := List.all_eq_true.mp hall j hj
    have hpre : stateOf (l₁.foldl (processNode cfg) initExecState).finished j
        = NodeState.succeeded := by simpa using this
    have : stateOf (runStates cfg (l₁ ++ nm :: l₂)).finished j = NodeState.succeeded := by
      unfold runStates
      calc stateOf ((l₁ ++ nm :: l₂).foldl (processNode cfg) initExecState).finished j
          = stateOf ((nm :: l₂).foldl (processNode cfg)
              (l₁.foldl (processNode cfg) initExecState)).finished j := by
            rw [List.foldl_append]
        _ = NodeState.succeeded := by
            rw [fold_stateOf_mono cfg (nm :: l₂) _ j (by rw [hpre]; simp)]
            exact hpre
    exact hns this
  constructor
  · have := hchar.1
    unfold runStates
    rw [this]
    unfold recordedState
    rw [if_neg (by simp [hcond])]
  · intro hdisp
    rcases hchar.2.mp hdisp with h | h
    · simp [initExecState] at h
    · rw [hcond] at h; cases h

theorem fold_cascade_skip (cfg : ExecConfig) (order : List QuantumNode)
    (hnodup : (order.map QuantumNode.index).Nodup) :
    ∀ i m, stateOf (runStates cfg order).finished i = NodeState.failed →
      DependsPath order i m →
      stateOf (runStates cfg order).finished m = NodeState.skipped ∧
        ∀ x ∈ (runStates cfg order).dispatched, x.index ≠ m := by
  intro i m hfail hpath
  have hnotdisp : ∀ nm ∈ order, nm ∉ (runStates cfg order).dispatched →
      ∀ x ∈ (runStates cfg order).dispatched, x.index ≠ nm.index := by
    intro nm hnm hnd x hx hxi
    obtain ⟨added, hadd, hsub⟩ := fold_dispatched_extends cfg order initExecState
    have hxo : x ∈ order := by
      have := hadd ▸ hx
      simpa [initExecState] using hsub.subset (by simpa [initExecState] using this)
    exact hnd (List.inj_on_of_nodup_map hnodup hxo hnm hxi ▸ hx)
  induction hpath with
  | @direct nm hin hdep =>
    have hns : stateOf (runStates cfg order).finished i ≠ NodeState.succeeded := by
      rw [hfail]; simp
    obtain ⟨h1, h2⟩ := fold_skip_of_dep_not_succeeded cfg order hnodup nm hin i hdep hns
    exact ⟨h1, hnotdisp nm hin h2⟩
  | @extend k nm hpath hin hdep ihp =>
    obtain ⟨hk, -⟩ := ihp
    have hns : stateOf (runStates cfg order).finished k ≠ NodeState.succeeded := by
      rw [hk]; simp
    obtain ⟨h1, h2⟩ := fold_skip_of_dep_not_succeeded cfg order hnodup nm hin k hdep hns
    exact ⟨h1, hnotdisp nm hin h2⟩

theorem fold_dispatch_of_deps (cfg : ExecConfig) (order : List QuantumNode)
    (hff : cfg.failFast = false)
    (hnodup : (order.map QuantumNode.index).Nodup)
    (hchain : chainOK [] order) :
    ∀ n ∈ order,
      (∀ d ∈ n.dependencies,
        stateOf (runStates cfg order).finished d = NodeState.succeeded) →
      n ∈ (runStates cfg order).dispatched := by
  intro n hmem hdeps
  obtain ⟨l₁, l₂, hsplit⟩ := List.append_of_mem hmem
  subst hsplit
  obtain ⟨hnotmem₁, hnotmem₂⟩ := nodup_split_not_mem hnodup
  have hchar := fold_char cfg l₁ n l₂ initExecState (by simp [initExecState]) hnotmem₁ hnotmem₂
  have hnodup₁ : (l₁.map QuantumNode.index).Nodup := by
    rw [List.map_append] at hnodup
    exact (List.nodup_append.mp hnodup).1
  have hcond : dispatchCondB (l₁.foldl (processNode cfg) initExecState) n = true := by
    unfold dispatchCondB
    rw [Bool.and_eq_true]
    constructor
    · have := fold_stopped_of_not_failFast hff l₁ initExecState
      rw [this]
      rfl
    · rw [List.all_eq_true]
      intro d hd
      rcases chainOK_split l₁ [] n l₂ hchain d hd with h | h
      · cases h
      · obtain ⟨nd, hndmem, hndidx⟩ := List.mem_map.mp h
        obtain ⟨la, lb, hsplit₁⟩ := List.append_of_mem hndmem
        have hord2 : l₁ ++ n :: l₂ = la ++ nd :: (lb ++ n :: l₂) := by
          rw [hsplit₁]; simp
        obtain ⟨hla, hlb⟩ := nodup_split_not_mem (hsplit₁ ▸ hnodup₁)
        obtain ⟨hla', hrest'⟩ := nodup_split_not_mem (hord2 ▸ hnodup)
        have hchar₁ := fold_char cfg la nd lb initExecState
          (by simp [initExecState]) hla hlb
        have hchar₂ := fold_char cfg la nd (lb ++ n :: l₂) initExecState
          (by simp [initExecState]) hla' hrest'
        have hfin : stateOf (runStates cfg (l₁ ++ n :: l₂)).finished nd.index
            = recordedState cfg (la.foldl (processNode cfg) initExecState) nd := by
          unfold runStates
          rw [hord2]
          exact hchar₂.1
        have hpre : stateOf (l₁.foldl (processNode cfg) initExecState).finished nd.index
            = recordedState cfg (la.foldl (processNode cfg) initExecState) nd := by
          rw [hsplit₁]
          exact hchar₁.1
        have hsucc := hdeps d hd
        rw [← hndidx] at hsucc
        rw [hfin] at hsucc
        rw [hndidx.symm, hpre, hsucc]
        simp
  exact hchar.2.mpr (Or.inr hcond)

theorem fold_complete (cfg : ExecConfig) (order : List QuantumNode)
    (hff : cfg.failFast = false)
    (hnodup : (order.map QuantumNode.index).Nodup)
    (hchain : chainOK [] order)
    (hnt : ∀ n ∈ order, runOutcome cfg.timeout n.taskDef.behavior ≠ NodeState.timedOut) :
    ∀ n ∈ order,
      (∀ i, DependsPath order i n.index →
        stateOf (runStates cfg order).finished i ≠ NodeState.failed) →
      n ∈ (runStates cfg order).dispatched := by
  suffices haux : ∀ k (l₁ n : _) (l₂ : List QuantumNode), order = l₁ ++ n :: l₂ →
      l₁.length = k →
      (∀ i, DependsPath order i n.index →
        stateOf (runStates cfg order).finished i ≠ NodeState.failed) →
      n ∈ (runStates cfg order).dispatched by
    intro n hmem hanc
    obtain ⟨l₁, l₂, hs⟩ := List.append_of_mem hmem
    exact haux l₁.length l₁ n l₂ hs rfl hanc
  intro k
  induction k using Nat.strong_induction_on with
  | _ k ih =>
    intro l₁ n l₂ hsplit hlen hanc
    have hnmem : n ∈ order := by
      rw [hsplit]; exact List.mem_append.mpr (Or.inr (List.mem_cons_self _ _))
    apply fold_dispatch_of_deps cfg order hff hnodup hchain n hnmem
    intro d hd
    have hd' : d ∈ l₁.map QuantumNode.index := by
      rcases chainOK_split l₁ [] n l₂ (hsplit ▸ hchain) d hd with h | h
      · cases h
      · exact h
    obtain ⟨nd, hndmem, hndidx⟩ := List.mem_map.mp hd'
    obtain ⟨la, lb, hsplit₁⟩ := List.append_of_mem hndmem
    have hord2 : order = la ++ nd :: (lb ++ n :: l₂) := by
      rw [hsplit, hsplit₁]; simp
    have hndord : nd ∈ order := by
      rw [hord2]; exact List.mem_append.mpr (Or.inr (List.mem_cons_self _ _))
    have hanc' : ∀ i, DependsPath order i nd.index →
        stateOf (runStates cfg order).finished i ≠ NodeState.failed := by
      intro i hpath
      exact hanc i (DependsPath.extend hpath hnmem (hndidx.symm ▸ hd))
    have hlenlt : la.length < k := by
      rw [hsplit₁] at hlen
      simp [List.length_append] at hlen
      omega
    have hnddisp : nd ∈ (runStates cfg order).dispatched :=
      ih la.length hlenlt la nd (lb ++ n :: l₂) hord2 rfl hanc'
    have hstate := fold_dispatched_state cfg order hnodup nd hnddisp
    rcases runOutcome_cases cfg.timeout nd.taskDef.behavior with ho | ho | ho
    · rw [← hndidx, hstate, ho]
    · exfalso
      apply hanc nd.index (DependsPath.direct hnmem (hndidx.symm ▸ hd))
      rw [hstate, ho]
    · exact absurd ho (hnt nd hndord)

/-! ## The canonical fixup's ordering -/

theorem fixupOrder_perm (f : FixupSpec) (keyed : List (Int × QuantumNode)) :
    List.Perm (fixupOrder f keyed) keyed := by
  unfold fixupOrder
  by_cases h : f.reverse
  · rw [if_pos h]
    exact (List.reverse_perm _).trans (List.perm_insertionSort keyRel keyed)
  · rw [if_neg h]
    exact List.perm_insertionSort keyRel keyed

theorem fixupOrder_sorted_asc (f : FixupSpec) (keyed : List (Int × QuantumNode))
    (h : f.reverse = false) :
    (fixupOrder f keyed).Pairwise keyRel := by
  unfold fixupOrder
  rw [if_neg (by simp [h])]
  exact List.sorted_insertionSort keyRel keyed

theorem fixupOrder_sorted_desc (f : FixupSpec) (keyed : List (Int × QuantumNode))
    (h : f.reverse = true) :
    (fixupOrder f keyed).Pairwise (fun a b => keyRel b a) := by
  unfold fixupOrder
  rw [if_pos (by simp [h])]
  exact List.pairwise_reverse.mpr (List.sorted_insertionSort keyRel keyed)

theorem chainPairs_mem :
    ∀ (pre : List (Int × QuantumNode)) (x y : Int × QuantumNode)
      (post : List (Int × QuantumNode)),
      (x.2.index, y.2.index) ∈ chainPairs (pre ++ x :: y :: post) := by
  intro pre
  induction pre with
  | nil =>
    intro x y post
    simp only [List.nil_append]
    unfold chainPairs
    exact List.mem_cons_self _ _
  | cons a rest ih =>
    intro x y post
    have hne : rest ++ x :: y :: post ≠ [] := by
      intro h
      exact absurd (h ▸ List.mem_append.mpr (Or.inr (List.mem_cons_self _ _)))
        (List.not_mem_nil x)
    cases hr : rest ++ x :: y :: post with
    | nil => exact absurd hr hne
    | cons r0 rest' =>
      have : chainPairs (a :: rest ++ x :: y :: post)
          = (a.2.index, r0.2.index) :: chainPairs (r0 :: rest') := by
        rw [List.cons_append, hr]
        rfl
      rw [List.cons_append, hr]
      show _ ∈ chainPairs (a :: r0 :: rest')
      unfold chainPairs
      exact List.mem_cons_of_mem _ (hr ▸ ih x y post)

theorem addChainDeps_adds {edges : List (Nat × Nat)} {a b : Nat} (n : QuantumNode)
    (hmem : (a, b) ∈ edges) (hidx : b = n.index) :
    a ∈ (addChainDeps edges n).dependencies := by
  unfold addChainDeps
  simp only
  apply List.mem_append.mpr
  right
  apply List.mem_map.mpr
  refine ⟨(a, b), List.mem_filter.mpr ⟨hmem, by simp [hidx]⟩, rfl⟩

theorem ExecFixupDataId_apply_eq (f : FixupSpec) (g : GraphView)
    (keyed : List (Int × QuantumNode))
    (hkeyed : (g.nodes.filter (fun n => n.taskDef.label == f.taskLabel)).mapM
        (fun n => (dataIdGet n.dataId f.dataIdField).map (fun k => (k, n))) = some keyed) :
    ExecFixupDataId.apply f g
      = Except.ok ⟨g.nodes.map (addChainDeps (chainPairs (fixupOrder f keyed)))⟩ := by
  unfold ExecFixupDataId.apply
  simp only [hkeyed]

/-! ## Final helpers for the claim theorems -/

theorem DependsPath.mono {l₁ l₂ : List QuantumNode} (hsub : ∀ x, x ∈ l₁ → x ∈ l₂)
    {i m : Nat} (h : DependsPath l₁ i m) : DependsPath l₂ i m := by
  induction h with
  | @direct nm hin hdep => exact DependsPath.direct (hsub _ hin) hdep
  | @extend k nm hp hin hdep ih => exact DependsPath.extend ih (hsub _ hin) hdep

theorem stateOf_mem_of_ne_pending {fin : List (Nat × NodeState)} {i : Nat} {s : NodeState}
    (h : stateOf fin i = s) (hs : s ≠ NodeState.pending) :
    ∃ p ∈ fin, p.1 = i ∧ p.2 = s := by
  unfold stateOf at h
  cases hf : fin.find? (fun p => p.1 == i) with
  | none => rw [hf] at h; exact absurd h.symm hs
  | some p =>
    rw [hf] at h
    have hbeq : (fun (q : Nat × NodeState) => q.1 == i) p = true :=
      @List.find?_some _ (fun (q : Nat × NodeState) => q.1 == i) p fin hf
    exact ⟨p, List.mem_of_find?_eq_some hf, beq_iff_eq.mp (by simpa using hbeq), h⟩

theorem execute_dispatch_sound (cfg : ExecConfig) (g : GraphView)
    (res : ExecResult) (st : ExecState)
    (hexec : MPGraphExecutor.execute cfg g = (res, st)) :
    ∀ n ∈ st.dispatched, ∀ d ∈ n.dependencies,
      stateOf st.finished d = NodeState.succeeded := by
  unfold MPGraphExecutor.execute at hexec
  cases happ : applyFixup cfg.fixup g with
  | error e =>
    rw [happ] at hexec
    obtain ⟨-, h2⟩ := Prod.mk.injEq .. ▸ hexec
    intro n hn
    rw [← h2] at hn
    simp [initExecState] at hn
  | ok g2 =>
    rw [happ] at hexec
    simp only at hexec
    by_cases hcyc : g2.topoOrder.2 = []
    · rw [if_pos hcyc] at hexec
      by_cases hmp : 1 < cfg.numProc ∧ g2.nodes.any (fun n => !n.taskDef.canMultiprocess) = true
      · rw [if_pos hmp] at hexec
        obtain ⟨-, h2⟩ := Prod.mk.injEq .. ▸ hexec
        intro n hn
        rw [← h2] at hn
        simp [initExecState] at hn
      · rw [if_neg hmp] at hexec
        obtain ⟨-, h2⟩ := Prod.mk.injEq .. ▸ hexec
        rw [← h2]
        apply fold_dispatched_deps_succeeded
        intro n hn
        simp [initExecState] at hn
    · rw [if_neg hcyc] at hexec
      obtain ⟨-, h2⟩ := Prod.mk.injEq .. ▸ hexec
      intro n hn
      rw [← h2] at hn
      simp [initExecState] at hn

/-! ## Claim C1 — dependency respect and cascading skip -/

/-- C1. Dependency respect and cascading skip: for every graph executed by
`MPGraphExecutor.execute`, a node is dispatched only if every one of its
predecessors terminated `Succeeded`; when a node terminates `Failed`, every
node with a dependency path from it is never dispatched and is recorded
`Skipped`; under the non-fail-fast policy with no timeouts, every node with
no dependency path from any failed node is still dispatched; and in the
concrete five-node graph with edges 1→2, 3→4, 2→4 where node 1 fails, the
succeeded detectors are exactly `[0, 3]`, nodes 2 and 4 are `Skipped`, and a
graph-execution error is raised. -/
theorem dependency_respect_and_cascading_skip
    (cfg : ExecConfig) (g : GraphView) (res : ExecResult) (st : ExecState)
    (hfix : cfg.fixup = none)
    (hnodup : (g.nodes.map QuantumNode.index).Nodup)
    (hexec : MPGraphExecutor.execute cfg g = (res, st)) :
    (∀ n ∈ st.dispatched, ∀ d ∈ n.dependencies,
        stateOf st.finished d = NodeState.succeeded)
    ∧ (∀ i m, stateOf st.finished i = NodeState.failed → DependsPath g.nodes i m →
        stateOf st.finished m = NodeState.skipped ∧ ∀ x ∈ st.dispatched, x.index ≠ m)
    ∧ (cfg.failFast = false →
        (∀ n ∈ g.nodes, runOutcome cfg.timeout n.taskDef.behavior ≠ NodeState.timedOut) →
        (res = ExecResult.ok ∨ res = ExecResult.graphExecError) →
        ∀ n ∈ g.nodes,
          (∀ i, DependsPath g.nodes i n.index → stateOf st.finished i ≠ NodeState.failed) →
          n ∈ st.dispatched)
    ∧ ((MPGraphExecutor.execute cfgPar graphDep).1 = ExecResult.graphExecError
        ∧ quantaDetectors (MPGraphExecutor.execute cfgPar graphDep).2 = [some 0, some 3]
        ∧ stateOf (MPGraphExecutor.execute cfgPar graphDep).2.finished 2 = NodeState.skipped
        ∧ stateOf (MPGraphExecutor.execute cfgPar graphDep).2.finished 4 = NodeState.skipped) := by
  refine ⟨execute_dispatch_sound cfg g res st hexec, ?_, ?_, by decide⟩
  · intro i m hfail hpath
    rcases execute_cases cfg g res st hfix hexec with ⟨hst, -⟩ | ⟨hcyc, hst, -, -⟩
    · subst hst
      simp [initExecState, stateOf] at hfail
    · subst hst
      have hperm := topoOrder_perm g hcyc
      have hnodup' : (g.topoOrder.1.map QuantumNode.index).Nodup :=
        ((hperm.map QuantumNode.index).nodup_iff).mpr hnodup
      have hpath' : DependsPath g.topoOrder.1 i m :=
        hpath.mono (fun x hx => hperm.mem_iff.mpr hx)
      exact fold_cascade_skip cfg g.topoOrder.1 hnodup' i m hfail hpath'
  · intro hff hnt hres n hn hanc
    rcases execute_cases cfg g res st hfix hexec with ⟨-, hres'⟩ | ⟨hcyc, hst, -, -⟩
    · rcases hres with h | h <;> rcases hres' with h' | h' <;> rw [h] at h' <;> cases h'
    · subst hst
      have hperm := topoOrder_perm g hcyc
      have hnodup' : (g.topoOrder.1.map QuantumNode.index).Nodup :=
        ((hperm.map QuantumNode.index).nodup_iff).mpr hnodup
      obtain ⟨tail, htail, hchain⟩ := topoOrder_chainOK g
      rw [← htail] at hchain
      apply fold_complete cfg g.topoOrder.1 hff hnodup' hchain
        (fun m hm => hnt m (hperm.mem_iff.mp hm)) n (hperm.mem_iff.mpr hn)
      intro i hpath
      exact hanc i (hpath.mono (fun x hx => hperm.mem_iff.mp hx))

/-- Witness for C1 at the concrete five-node scenario. -/
theorem dependency_respect_and_cascading_skip_witness :
    stateOf (MPGraphExecutor.execute cfgPar graphDep).2.finished 2 = NodeState.skipped
    ∧ quantaDetectors (MPGraphExecutor.execute cfgPar graphDep).2 = [some 0, some 3]
    ∧ (MPGraphExecutor.execute cfgPar graphDep).1 = ExecResult.graphExecError := by
  have h := dependency_respect_and_cascading_skip cfgPar graphDep
    (MPGraphExecutor.execute cfgPar graphDep).1
    (MPGraphExecutor.execute cfgPar graphDep).2 rfl (by decide) rfl
  exact ⟨h.2.2.2.2.2.1, h.2.2.2.2.1, h.2.2.2.1⟩

/-! ## Claim C2 — unsupported-parallelism rejection -/

/-- C2. For every acyclic graph containing a node whose task does not
support multiprocessing, `execute` with `numProc > 1` returns the
configuration error before any node is dispatched: the resulting state is
the initial one, with no dispatched node, no recorded quantum and an empty
report. -/
theorem unsupported_parallelism_rejection
    (cfg : ExecConfig) (g : GraphView)
    (hfix : cfg.fixup = none)
    (hnp : 1 < cfg.numProc)
    (hbad : ∃ n ∈ g.nodes, n.taskDef.canMultiprocess = false)
    (hacyc : g.topoOrder.2 = []) :
    MPGraphExecutor.execute cfg g = (ExecResult.configError, initExecState)
    ∧ initExecState.dispatched = [] ∧ initExecState.quanta = []
    ∧ initExecState.finished = [] := by
  refine ⟨?_, rfl, rfl, rfl⟩
  unfold MPGraphExecutor.execute
  rw [hfix]
  simp only [applyFixup]
  rw [if_pos hacyc, if_pos]
  obtain ⟨n, hn, hb⟩ := hbad
  exact ⟨hnp, List.any_eq_true.mpr ⟨n, hn, by simp [hb]⟩⟩

/-- Witness for C2 at the no-multiprocess three-node graph. -/
theorem unsupported_parallelism_rejection_witness :
    MPGraphExecutor.execute cfgPar graphNoMP = (ExecResult.configError, initExecState) :=
  (unsupported_parallelism_rejection cfgPar graphNoMP rfl (by decide)
    ⟨mkNode 0 noMPTask 0 [], by decide, by decide⟩ (by decide)).1

/-! ## Claim C3 — timeout semantics -/

/-- C3. Timeout semantics: a dispatched node whose task runs longer than the
configured timeout is classified `TimedOut`; whenever some node is recorded
`TimedOut`, `execute` raises the timeout error; in the concrete three-node
scenario with `failFast = true` (timeout 1) the error is raised immediately —
only the first node has been dispatched, the third is `Skipped` — while with
`failFast = false` (timeout 3) the remaining frontier is drained first, so
detectors 0 and 2 still complete successfully before the timeout error. -/
theorem timeout_semantics
    (cfg : ExecConfig) (g : GraphView) (res : ExecResult) (st : ExecState)
    (hfix : cfg.fixup = none)
    (hnodup : (g.nodes.map QuantumNode.index).Nodup)
    (hexec : MPGraphExecutor.execute cfg g = (res, st)) :
    (∀ n ∈ st.dispatched, ∀ s, n.taskDef.behavior = TaskBehavior.sleep s →
        cfg.timeout < s → stateOf st.finished n.index = NodeState.timedOut)
    ∧ ((∃ p ∈ st.finished, p.2 = NodeState.timedOut) → res = ExecResult.timeoutError)
    ∧ ((MPGraphExecutor.execute cfgTimeoutFF graphSleepMid).1 = ExecResult.timeoutError
        ∧ quantaDetectors (MPGraphExecutor.execute cfgTimeoutFF graphSleepMid).2 = [some 0]
        ∧ stateOf (MPGraphExecutor.execute cfgTimeoutFF graphSleepMid).2.finished 1
            = NodeState.timedOut
        ∧ stateOf (MPGraphExecutor.execute cfgTimeoutFF graphSleepMid).2.finished 2
            = NodeState.skipped
        ∧ (MPGraphExecutor.execute cfgTimeoutFF graphSleepMid).2.dispatched.length = 2)
    ∧ ((MPGraphExecutor.execute cfgTimeoutNoFF graphSleepMid).1 = ExecResult.timeoutError
        ∧ quantaDetectors (MPGraphExecutor.execute cfgTimeoutNoFF graphSleepMid).2
            = [some 0, some 2]
        ∧ (MPGraphExecutor.execute cfgTimeoutNoFF graphSleepMid).2.finished.map Prod.fst
            = [0, 1, 2]) := by
  refine ⟨?_, ?_, by decide, by decide⟩
  · intro n hn s hb ht
    rcases execute_cases cfg g res st hfix hexec with ⟨hst, -⟩ | ⟨hcyc, hst, -, -⟩
    · subst hst
      simp [initExecState] at hn
    · subst hst
      have hperm := topoOrder_perm g hcyc
      have hnodup' : (g.topoOrder.1.map QuantumNode.index).Nodup :=
        ((hperm.map QuantumNode.index).nodup_iff).mpr hnodup
      have := fold_dispatched_state cfg g.topoOrder.1 hnodup' n hn
      rw [this]
      unfold runOutcome
      rw [hb]
      simp [ht]
  · intro hto
    rcases execute_cases cfg g res st hfix hexec with ⟨hst, -⟩ | ⟨-, -, hres, -⟩
    · subst hst
      obtain ⟨p, hp, -⟩ := hto
      simp [initExecState] at hp
    · rw [hres]
      exact classify_timeout hto

/-- Witness for C3 at the concrete timeout scenarios. -/
theorem timeout_semantics_witness :
    (MPGraphExecutor.execute cfgTimeoutNoFF graphSleepMid).1 = ExecResult.timeoutError
    ∧ quantaDetectors (MPGraphExecutor.execute cfgTimeoutNoFF graphSleepMid).2
        = [some 0, some 2]
    ∧ (MPGraphExecutor.execute cfgTimeoutFF graphSleepMid).1 = ExecResult.timeoutError := by
  have h := timeout_semantics cfgTimeoutNoFF graphSleepMid
    (MPGraphExecutor.execute cfgTimeoutNoFF graphSleepMid).1
    (MPGraphExecutor.execute cfgTimeoutNoFF graphSleepMid).2 rfl (by decide) rfl
  exact ⟨h.2.2.2.1, h.2.2.2.2.1, h.2.2.1.1⟩

/-! ## Claim C4 — non-fail-fast continuation -/

/-- C4. Non-fail-fast continuation: with `failFast = false` a failure does
not stop independent nodes — every node all of whose predecessors terminated
`Succeeded` is still dispatched, every scheduled node receives a terminal
record in the full Report, and the graph-execution error is only raised at
the end when some node terminated non-`Succeeded` (and none timed out); in
the three-node graph where the middle node fails, detectors 0 and 2 both
execute successfully and the graph-execution error is raised. -/
theorem non_failfast_continuation
    (cfg : ExecConfig) (g : GraphView) (res : ExecResult) (st : ExecState)
    (hfix : cfg.fixup = none)
    (hff : cfg.failFast = false)
    (hnodup : (g.nodes.map QuantumNode.index).Nodup)
    (hexec : MPGraphExecutor.execute cfg g = (res, st)) :
    ((res = ExecResult.ok ∨ res = ExecResult.graphExecError ∨ res = ExecResult.timeoutError) →
        (∀ n ∈ g.nodes,
          (∀ d ∈ n.dependencies, stateOf st.finished d = NodeState.succeeded) →
          n ∈ st.dispatched)
        ∧ st.finished.map Prod.fst = g.topoOrder.1.map QuantumNode.index)
    ∧ ((∀ p ∈ st.finished, p.2 ≠ NodeState.timedOut) →
        (∃ p ∈ st.finished, p.2 ≠ NodeState.succeeded) →
        res = ExecResult.graphExecError)
    ∧ ((MPGraphExecutor.execute cfgPar graphFailMid).1 = ExecResult.graphExecError
        ∧ quantaDetectors (MPGraphExecutor.execute cfgPar graphFailMid).2 = [some 0, some 2]
        ∧ (MPGraphExecutor.execute cfgPar graphFailMid).2.finished
            = [(0, NodeState.succeeded), (1, NodeState.failed), (2, NodeState.succeeded)]) := by
  refine ⟨?_, ?_, by decide⟩
  · intro hres
    rcases execute_cases cfg g res st hfix hexec with ⟨-, hres'⟩ | ⟨hcyc, hst, -, -⟩
    · rcases hres' with h' | h' <;> rw [h'] at hres <;>
        rcases hres with h | h | h <;> cases h
    · subst hst
      have hperm := topoOrder_perm g hcyc
      have hnodup' : (g.topoOrder.1.map QuantumNode.index).Nodup :=
        ((hperm.map QuantumNode.index).nodup_iff).mpr hnodup
      obtain ⟨tail, htail, hchain⟩ := topoOrder_chainOK g
      rw [← htail] at hchain
      constructor
      · intro n hn hdeps
        exact fold_dispatch_of_deps cfg g.topoOrder.1 hff hnodup' hchain n
          (hperm.mem_iff.mpr hn) hdeps
      · unfold runStates
        rw [fold_finished_map_fst]
        simp [initExecState]
  · intro hnt hbad
    rcases execute_cases cfg g res st hfix hexec with ⟨hst, -⟩ | ⟨-, -, hres, -⟩
    · subst hst
      obtain ⟨p, hp, -⟩ := hbad
      simp [initExecState] at hp
    · rw [hres]
      exact classify_graphExec hnt hbad

/-- Witness for C4 at the middle-failure three-node graph. -/
theorem non_failfast_continuation_witness :
    (MPGraphExecutor.execute cfgPar graphFailMid).1 = ExecResult.graphExecError
    ∧ quantaDetectors (MPGraphExecutor.execute cfgPar graphFailMid).2 = [some 0, some 2] := by
  have h := non_failfast_continuation cfgPar graphFailMid
    (MPGraphExecutor.execute cfgPar graphFailMid).1
    (MPGraphExecutor.execute cfgPar graphFailMid).2 rfl rfl (by decide) rfl
  exact ⟨h.2.2.1, h.2.2.2.1⟩

/-! ## Claim C5 — canonical fixup ordering -/

/-- C5. The canonical fixup chains all nodes with the given task label in
ascending order of the integer data-id field — descending when `reverse` is
set — by adding predecessor edges: the chained order is a permutation of the
matching nodes, sorted by key (ties broken on node index), consecutive nodes
of the chain get their dependency edge, and executing the three independent
detector nodes under `numProc = 1` yields execution order `[2, 1, 0]` with
`reverse = true` and `[0, 1, 2]` with `reverse = false`. -/
theorem canonical_fixup_ordering
    (f : FixupSpec) (g : GraphView) (keyed : List (Int × QuantumNode))
    (hkeyed : (g.nodes.filter (fun n => n.taskDef.label == f.taskLabel)).mapM
        (fun n => (dataIdGet n.dataId f.dataIdField).map (fun k => (k, n))) = some keyed) :
    List.Perm (fixupOrder f keyed) keyed
    ∧ (f.reverse = false → (fixupOrder f keyed).Pairwise keyRel)
    ∧ (f.reverse = true → (fixupOrder f keyed).Pairwise (fun a b => keyRel b a))
    ∧ ExecFixupDataId.apply f g
        = Except.ok ⟨g.nodes.map (addChainDeps (chainPairs (fixupOrder f keyed)))⟩
    ∧ (∀ pre x y post, fixupOrder f keyed = pre ++ x :: y :: post →
        x.2.index ∈ (addChainDeps (chainPairs (fixupOrder f keyed)) y.2).dependencies)
    ∧ (quantaDetectors (MPGraphExecutor.execute (cfgFix true) graphFree).2
          = [some 2, some 1, some 0]
        ∧ quantaDetectors (MPGraphExecutor.execute (cfgFix false) graphFree).2
          = [some 0, some 1, some 2]
        ∧ (MPGraphExecutor.execute (cfgFix true) graphFree).1 = ExecResult.ok
        ∧ (MPGraphExecutor.execute (cfgFix false) graphFree).1 = ExecResult.ok) := by
  refine ⟨fixupOrder_perm f keyed, fixupOrder_sorted_asc f keyed,
    fixupOrder_sorted_desc f keyed, ExecFixupDataId_apply_eq f g keyed hkeyed,
    ?_, by decide⟩
  intro pre x y post hsplit
  apply addChainDeps_adds (b := y.2.index) y.2 _ rfl
  rw [hsplit]
  exact chainPairs_mem pre x y post

/-- Witness for C5 at the three-detector fixup scenario. -/
theorem canonical_fixup_ordering_witness :
    quantaDetectors (MPGraphExecutor.execute (cfgFix true) graphFree).2
        = [some 2, some 1, some 0]
    ∧ quantaDetectors (MPGraphExecutor.execute (cfgFix false) graphFree).2
        = [some 0, some 1, some 2] := by
  have h := canonical_fixup_ordering ⟨"task1", "detector", true⟩ graphFree
    [(0, mkNode 0 okTask 0 []), (1, mkNode 1 okTask 1 []), (2, mkNode 2 okTask 2 [])]
    (by decide)
  exact ⟨h.2.2.2.2.2.1, h.2.2.2.2.2.2.1⟩

/-! ## Claim C6 — serial-order determinism -/

/-- C6. Serial-order determinism: nodes are dispatched following the graph
view's topological iteration order (the dispatch list is always an in-order
sublist of it, and is exactly it when every task succeeds), so executing the
three-node straight-line graph with detectors 0,1,2 under `numProc = 1`
records the quanta in exactly the order `[0, 1, 2]`, all `Succeeded`, and
`execute` returns without raising. -/
theorem serial_order_determinism
    (cfg : ExecConfig) (g : GraphView) (res : ExecResult) (st : ExecState)
    (hfix : cfg.fixup = none)
    (_hserial : cfg.numProc = 1)
    (hexec : MPGraphExecutor.execute cfg g = (res, st)) :
    List.Sublist st.dispatched g.topoOrder.1
    ∧ (cfg.failFast = false →
        (∀ n ∈ g.nodes, runOutcome cfg.timeout n.taskDef.behavior = NodeState.succeeded) →
        (res = ExecResult.ok ∨ res = ExecResult.graphExecError) →
        (g.nodes.map QuantumNode.index).Nodup →
        st.dispatched = g.topoOrder.1 ∧ st.quanta = st.dispatched)
    ∧ ((MPGraphExecutor.execute cfgSerial graphChain).1 = ExecResult.ok
        ∧ quantaDetectors (MPGraphExecutor.execute cfgSerial graphChain).2
            = [some 0, some 1, some 2]
        ∧ (MPGraphExecutor.execute cfgSerial graphChain).2.finished
            = [(0, NodeState.succeeded), (1, NodeState.succeeded), (2, NodeState.succeeded)]
        ∧ quantaDetectors (MPGraphExecutor.execute cfgSerial graphFree).2
            = [some 0, some 1, some 2]) := by
  refine ⟨?_, ?_, by decide⟩
  · rcases execute_cases cfg g res st hfix hexec with ⟨hst, -⟩ | ⟨-, hst, -, -⟩
    · subst hst
      exact List.nil_sublist _
    · subst hst
      obtain ⟨added, hadd, hsub⟩ := fold_dispatched_extends cfg g.topoOrder.1 initExecState
      unfold runStates
      rw [hadd]
      simpa [initExecState] using hsub
  · intro hff hall hres hnodup
    rcases execute_cases cfg g res st hfix hexec with ⟨-, hres'⟩ | ⟨hcyc, hst, -, -⟩
    · rcases hres' with h' | h' <;> rw [h'] at hres <;> rcases hres with h | h <;> cases h
    · subst hst
      have hperm := topoOrder_perm g hcyc
      have hnodup' : (g.topoOrder.1.map QuantumNode.index).Nodup :=
        ((hperm.map QuantumNode.index).nodup_iff).mpr hnodup
      obtain ⟨tail, htail, hchain⟩ := topoOrder_chainOK g
      rw [← htail] at hchain
      have hnofail : ∀ i, stateOf (runStates cfg g.topoOrder.1).finished i
          ≠ NodeState.failed := by
        intro i hfail
        obtain ⟨p, hp, -, hp2⟩ := stateOf_mem_of_ne_pending hfail (by simp)
        rcases fold_entry_cases cfg g.topoOrder.1 initExecState p hp with h | h | ⟨n, hn, -, h2⟩
        · simp [initExecState] at h
        · rw [hp2] at h; cases h
        · rw [hall n (hperm.mem_iff.mp hn)] at h2
          rw [hp2] at h2
          cases h2
      have hdispall : ∀ n ∈ g.topoOrder.1, n ∈ (runStates cfg g.topoOrder.1).dispatched := by
        intro n hn
        apply fold_complete cfg g.topoOrder.1 hff hnodup' hchain
          (fun m hm => by rw [hall m (hperm.mem_iff.mp hm)]; simp) n hn
        intro i _
        exact hnofail i
      obtain ⟨added, hadd, hsub⟩ := fold_dispatched_extends cfg g.topoOrder.1 initExecState
      have hadd' : (runStates cfg g.topoOrder.1).dispatched = added := by
        unfold runStates
        rw [hadd]
        simp [initExecState]
      have hordnodup : g.topoOrder.1.Nodup := List.Nodup.of_map _ hnodup'
      have hsubset : g.topoOrder.1 ⊆ added := by
        intro n hn
        rw [← hadd']
        exact hdispall n hn
      have hlen : added.length = g.topoOrder.1.length :=
        le_antisymm hsub.length_le ((List.subperm_of_subset hordnodup hsubset).length_le)
      have hdisp : (runStates cfg g.topoOrder.1).dispatched = g.topoOrder.1 := by
        rw [hadd']
        exact hsub.eq_of_length hlen
      refine ⟨hdisp, ?_⟩
      have hq := fold_quanta_filter cfg g.topoOrder.1 initExecState (by simp [initExecState])
      unfold runStates at *
      rw [hq]
      apply List.filter_eq_self.mpr
      intro n hn
      rw [hdisp] at hn
      rw [hall n (hperm.mem_iff.mp hn)]
      simp

/-- Witness for C6 at the straight-line three-node graph. -/
theorem serial_order_determinism_witness :
    (MPGraphExecutor.execute cfgSerial graphChain).1 = ExecResult.ok
    ∧ quantaDetectors (MPGraphExecutor.execute cfgSerial graphChain).2
        = [some 0, some 1, some 2] := by
  have h := serial_order_determinism cfgSerial graphChain
    (MPGraphExecutor.execute cfgSerial graphChain).1
    (MPGraphExecutor.execute cfgSerial graphChain).2 rfl rfl rfl
  exact ⟨h.2.2.1, h.2.2.2.1⟩

/-! ## Claim C7 — CLI flag-to-config mapping -/

/-- C7 counterexample: the claim that the run subcommand's parser accepts all
of `-j`/`--processes`, `--timeout`, `--start-method`, `--fail-fast` and `--pdb`
is false — `--start-method`, `--fail-fast` and `--pdb` are not defined by
`_makeExecOptions` (or any other group of `makeParser`). -/
theorem cli_flag_mapping_counterexample :
    ¬(acceptsOptionString "-j" = true ∧ acceptsOptionString "--processes" = true ∧
      acceptsOptionString "--timeout" = true ∧ acceptsOptionString "--start-method" = true ∧
      acceptsOptionString "--fail-fast" = true ∧ acceptsOptionString "--pdb" = true) := by
  decide

/-- C7 (amended). The run subcommand's execution options are exactly
`--doraise`, `--profile`, `-j`/`--processes` (an int with default 1),
`--timeout` (a float) and `--graph-fixup`; the parser accepts the first two
mapped flags but defines no `--start-method`, `--fail-fast` or `--pdb`
option. -/
theorem cli_flag_mapping_amended :
    makeExecOptions
      = [⟨["--doraise"], ArgKind.flag, none⟩,
         ⟨["--profile"], ArgKind.str, none⟩,
         ⟨["-j", "--processes"], ArgKind.int, some 1⟩,
         ⟨["--timeout"], ArgKind.float, none⟩,
         ⟨["--graph-fixup"], ArgKind.str, none⟩]
    ∧ acceptsOptionString "-j" = true
    ∧ acceptsOptionString "--processes" = true
    ∧ findOption "-j" = some ⟨["-j", "--processes"], ArgKind.int, some 1⟩
    ∧ acceptsOptionString "--timeout" = true
    ∧ findOption "--timeout" = some ⟨["--timeout"], ArgKind.float, none⟩
    ∧ acceptsOptionString "--start-method" = false
    ∧ acceptsOptionString "--fail-fast" = false
    ∧ acceptsOptionString "--pdb" = false := by
  refine ⟨rfl, ?_⟩
  decide

/-! ## Claim C9 — default `getReport` behavior -/

/-- C9. The default `QuantumExecutor.getReport` body always returns `None`
and never raises — in particular it does not raise the `RuntimeError` its
docstring promises when called before `execute`. -/
theorem getReport_default_returns_none :
    ∀ executeCalled : Bool,
      QuantumExecutor.getReportDefault executeCalled = PyResult.ok none
      ∧ ∀ exc, QuantumExecutor.getReportDefault executeCalled ≠ PyResult.raised exc := by
  intro executeCalled
  exact ⟨rfl, fun exc h => by cases h⟩

/-- Witness for C9: called before any `execute`, the default `getReport`
still returns `None`. -/
theorem getReport_default_returns_none_witness :
    QuantumExecutor.getReportDefault false = PyResult.ok none :=
  (getReport_default_returns_none false).1

/-! ## Claim C10 — `DataIdMatch.match` result totality -/

/-- C10. `DataIdMatch.match` either returns a boolean or raises: a returned
value always comes from a boolean evaluation of the tree, an evaluation to a
non-boolean value raises `TypeError`, every evaluation error (in particular
the `KeyError` raised as soon as evaluation reaches an identifier that is not
a key of the DataId) propagates, and a missing identifier evaluates to
`KeyError`. -/
theorem dataIdMatch_result_totality :
    (∀ e d b, DataIdMatch.matches e d = Except.ok b →
        evalExpr e d = Except.ok (PyValue.bool b))
    ∧ (∀ e d v, evalExpr e d = Except.ok v → (∀ b, v ≠ PyValue.bool b) →
        DataIdMatch.matches e d = Except.error PyExc.typeError)
    ∧ (∀ e d exc, evalExpr e d = Except.error exc →
        DataIdMatch.matches e d = Except.error exc)
    ∧ (∀ name d, dataIdLookup d name = none →
        evalExpr (Expr.ident name) d = Except.error PyExc.keyError) := by
  refine ⟨?_, ?_, ?_, ?_⟩
  · intro e d b h
    unfold DataIdMatch.matches at h
    cases he : evalExpr e d with
    | error exc => rw [he] at h; cases h
    | ok v =>
      rw [he] at h
      cases v with
      | bool b' => cases h; rfl
      | int i => cases h
      | float q => cases h
      | str s => cases h
      | range r => cases h
      | time t => cases h
  · intro e d v h hv
    unfold DataIdMatch.matches
    rw [h]
    cases v with
    | bool b => exact absurd rfl (hv b)
    | int i => rfl
    | float q => rfl
    | str s => rfl
    | range r => rfl
    | time t => rfl
  · intro e d exc h
    unfold DataIdMatch.matches
    rw [h]
  · intro name d h
    unfold evalExpr
    rw [h]

/-- Witness for C10: a numeric expression raises `TypeError`, a missing
identifier raises `KeyError`. -/
theorem dataIdMatch_result_totality_witness :
    DataIdMatch.matches (Expr.num "5") [] = Except.error PyExc.typeError
    ∧ DataIdMatch.matches (Expr.ident "visit") [("detector", PyValue.int 3)]
        = Except.error PyExc.keyError := by
  have h := dataIdMatch_result_totality
  refine ⟨h.2.1 (Expr.num "5") [] (PyValue.int 5) (by rfl) (fun b hb => by cases hb), ?_⟩
  exact h.2.2.1 (Expr.ident "visit") [("detector", PyValue.int 3)] PyExc.keyError
    (h.2.2.2 "visit" [("detector", PyValue.int 3)] (by rfl))

end Mpexec
